import Mathlib

/-!
Verification development for the seekchat LLM pipeline.

This file gives a shallow embedding, in Lean 4, of the JavaScript code of the
repository that the claims concern:

* the JSON repair cascade (`safeJsonParse`, `parseMCPToolParams` in
  `src/renderer/services/llm/utils/common.js`),
* the streaming tool-call delta assembler of the OpenAI-compatible base
  adapter (`src/renderer/services/llm/adapters/baseAdapter.js`),
* tool invocation (`handleToolCall`) and the recursive conversation driver
  (`sendMessageToAI`) in `src/renderer/services/llm/tools/toolHandler.js`
  and the AI service module,
* context-window truncation (`parseNeedSendMessage`) and stop-generation
  handling (`handleStopGeneration`) in `src/renderer/App.jsx`.

JavaScript strings are modelled as `List Char`; `JSON.parse` (which throws on
invalid input) is modelled as a total function into `Option Json`; code whose
exceptions are caught locally is modelled with `Except`.  i18n message lookup
(locale data is an external collaborator of the modelled core) is represented
by the translation key itself.
-/

set_option maxRecDepth 20000

/- ### Character-list string primitives mirroring the JavaScript string API -/

/-- JavaScript `\w` word characters: letters, digits, underscore. -/
def isWordChar (c : Char) : Bool :=
  (('a' ≤ c && c ≤ 'z') || ('A' ≤ c && c ≤ 'Z') || ('0' ≤ c && c ≤ '9') || c = '_')

/-- Whitespace as used by JavaScript `trim` and `\s` (common characters). -/
def isWsChar (c : Char) : Bool :=
  c = ' ' || c = '\t' || c = '\n' || c = '\r'

/-- `pat` is a prefix of `l` (JavaScript `String.prototype.startsWith`). -/
def listStarts : List Char → List Char → Bool
  | [], _ => true
  | _ :: _, [] => false
  | p :: ps, c :: cs => p = c && listStarts ps cs

/-- `pat` is a suffix of `l` (JavaScript `String.prototype.endsWith`). -/
def listEnds (pat l : List Char) : Bool :=
  listStarts pat.reverse l.reverse

/-- Index of the first occurrence of substring `pat` in `l`
(JavaScript `String.prototype.indexOf` for substrings). -/
def strIdxOfSub (pat : List Char) : List Char → Option Nat
  | [] => if listStarts pat [] then some 0 else none
  | c :: rest =>
    if listStarts pat (c :: rest) then some 0
    else (strIdxOfSub pat rest).map (· + 1)

/-- Whether substring `pat` occurs in `l` (JavaScript `includes`). -/
def containsSub (pat l : List Char) : Bool :=
  (strIdxOfSub pat l).isSome

/-- Index of the last occurrence of substring `pat` in `l`
(JavaScript `String.prototype.lastIndexOf`). -/
def lastIdxOfSub (pat : List Char) : List Char → Option Nat
  | [] => if listStarts pat [] then some 0 else none
  | c :: rest =>
    match lastIdxOfSub pat rest with
    | some i => some (i + 1)
    | none => if listStarts pat (c :: rest) then some 0 else none

/-- JavaScript `lastIndexOf` as an integer, `-1` when absent. -/
def lastIdxOfSubInt (pat l : List Char) : Int :=
  match lastIdxOfSub pat l with
  | some i => (i : Int)
  | none => -1

/-- Remove a leading run of characters satisfying `p`
(JavaScript `replace(/^[class]+/, "")`). -/
def stripLeading (p : Char → Bool) (l : List Char) : List Char :=
  l.dropWhile p

/-- Remove a trailing run of characters satisfying `p`
(JavaScript `replace(/[class]+$/, "")`). -/
def stripTrailing (p : Char → Bool) (l : List Char) : List Char :=
  (l.reverse.dropWhile p).reverse

/-- JavaScript `String.prototype.trim`. -/
def trimWs (l : List Char) : List Char :=
  stripLeading isWsChar (stripTrailing isWsChar l)

/-- Global replacement of `\"` by `"` (JavaScript `replace(/\\"/g, '"')`),
scanning left to right and resuming after each replacement. -/
def replEscQ : List Char → List Char
  | [] => []
  | [c] => [c]
  | c1 :: c2 :: rest =>
    if c1 = '\\' && c2 = '"' then '"' :: replEscQ rest
    else c1 :: replEscQ (c2 :: rest)

/-- Global replacement of `\\"` by `\"` (JavaScript `replace(/\\\\"/g, '\\"')`). -/
def replDblEscQ : List Char → List Char
  | [] => []
  | [c] => [c]
  | [c1, c2] => [c1, c2]
  | c1 :: c2 :: c3 :: rest =>
    if c1 = '\\' && c2 = '\\' && c3 = '"' then '\\' :: '"' :: replDblEscQ rest
    else c1 :: replDblEscQ (c2 :: c3 :: rest)

/-- Global replacement of `\\` by `\` (JavaScript `replace(/\\\\/g, "\\")`). -/
def replDblBS : List Char → List Char
  | [] => []
  | [c] => [c]
  | c1 :: c2 :: rest =>
    if c1 = '\\' && c2 = '\\' then '\\' :: replDblBS rest
    else c1 :: replDblBS (c2 :: rest)

/- ### JSON values and a model of JavaScript `JSON.parse` -/

/-- A JSON value.  Numbers keep their source lexeme: no claim in this
development depends on numeric evaluation, only on parse success and
structural identity, and a lexeme avoids floating point. -/
inductive Json where
  | null : Json
  | bool (b : Bool) : Json
  | num (lexeme : String) : Json
  | str (s : String) : Json
  | arr (elems : List Json) : Json
  | obj (fields : List (String × Json)) : Json

/-- Skip JSON whitespace. -/
def skipWs (l : List Char) : List Char :=
  l.dropWhile (fun c => c = ' ' || c = '\t' || c = '\n' || c = '\r')

/-- Decode one escape character after a backslash inside a JSON string. -/
def jsonEscChar (c : Char) : Option Char :=
  if c = '"' then some '"'
  else if c = '\\' then some '\\'
  else if c = '/' then some '/'
  else if c = 'b' then some (Char.ofNat 8)
  else if c = 'f' then some (Char.ofNat 12)
  else if c = 'n' then some '\n'
  else if c = 'r' then some '\r'
  else if c = 't' then some '\t'
  else none

/-- Value of a hexadecimal digit, computed on the code point: 48–57 are the
decimal digits, 97–102 the lowercase letters, 65–70 the uppercase ones. -/
def hexVal (c : Char) : Option Nat :=
  let n := c.toNat
  if 48 ≤ n && n ≤ 57 then some (n - 48)
  else if 97 ≤ n && n ≤ 102 then some (n - 87)
  else if 65 ≤ n && n ≤ 70 then some (n - 55)
  else none

/-- Parse the remainder of a JSON string literal (the opening quote already
consumed); returns the decoded characters and the rest of the input. -/
def parseStringRest : List Char → Option (List Char × List Char)
  | [] => none
  | c :: rest =>
    if c = '"' then some ([], rest)
    else if c = '\\' then
      match rest with
      | [] => none
      | e :: rest2 =>
        if e = 'u' then
          match rest2 with
          | h1 :: h2 :: h3 :: h4 :: rest3 =>
            match hexVal h1, hexVal h2, hexVal h3, hexVal h4 with
            | some v1, some v2, some v3, some v4 =>
              (parseStringRest rest3).map
                (fun r => (Char.ofNat (((v1 * 16 + v2) * 16 + v3) * 16 + v4) :: r.1, r.2))
            | _, _, _, _ => none
          | _ => none
        else
          match jsonEscChar e with
          | some d => (parseStringRest rest2).map (fun r => (d :: r.1, r.2))
          | none => none
    else if c.toNat < 32 then none
    else (parseStringRest rest).map (fun r => (c :: r.1, r.2))

/-- Parse the digit run of a JSON number part. -/
def takeDigits (l : List Char) : List Char × List Char :=
  (l.takeWhile (fun c => '0' ≤ c && c ≤ '9'), l.dropWhile (fun c => '0' ≤ c && c ≤ '9'))

/-- Parse a JSON number lexeme (strict JSON grammar). -/
def parseNumberLex (l : List Char) : Option (List Char × List Char) :=
  let (sign, l1) :=
    match l with
    | '-' :: rest => (['-'], rest)
    | _ => (([] : List Char), l)
  match l1 with
  | [] => none
  | c :: rest =>
    if c = '0' then
      let intPart := [c]
      let afterInt := rest
      let (frac, afterFrac) :=
        match afterInt with
        | '.' :: r =>
          let (ds, r2) := takeDigits r
          if ds.isEmpty then (none, afterInt) else (some ('.' :: ds), r2)
        | _ => (none, afterInt)
      match frac with
      | none =>
        let (ex, afterEx) :=
          match afterFrac with
          | e :: r =>
            if e = 'e' || e = 'E' then
              let (sgn, r1) :=
                match r with
                | s :: r2 => if s = '+' || s = '-' then ([s], r2) else (([] : List Char), r)
                | [] => (([] : List Char), r)
              let (ds, r2) := takeDigits r1
              if ds.isEmpty then (none, afterFrac) else (some (e :: (sgn ++ ds)), r2)
            else (none, afterFrac)
          | [] => (none, afterFrac)
        some (sign ++ intPart ++ ex.getD [], afterEx)
      | some f =>
        let (ex, afterEx) :=
          match afterFrac with
          | e :: r =>
            if e = 'e' || e = 'E' then
              let (sgn, r1) :=
                match r with
                | s :: r2 => if s = '+' || s = '-' then ([s], r2) else (([] : List Char), r)
                | [] => (([] : List Char), r)
              let (ds, r2) := takeDigits r1
              if ds.isEmpty then (none, afterFrac) else (some (e :: (sgn ++ ds)), r2)
            else (none, afterFrac)
          | [] => (none, afterFrac)
        some (sign ++ intPart ++ f ++ ex.getD [], afterEx)
    else if '1' ≤ c && c ≤ '9' then
      let (ds, afterInt) := takeDigits rest
      let intPart := c :: ds
      let (frac, afterFrac) :=
        match afterInt with
        | '.' :: r =>
          let (ds2, r2) := takeDigits r
          if ds2.isEmpty then (none, afterInt) else (some ('.' :: ds2), r2)
        | _ => (none, afterInt)
      let body := intPart ++ (frac.getD [])
      let (ex, afterEx) :=
        match afterFrac with
        | e :: r =>
          if e = 'e' || e = 'E' then
            let (sgn, r1) :=
              match r with
              | s :: r2 => if s = '+' || s = '-' then ([s], r2) else (([] : List Char), r)
              | [] => (([] : List Char), r)
            let (ds2, r2) := takeDigits r1
            if ds2.isEmpty then (none, afterFrac) else (some (e :: (sgn ++ ds2)), r2)
          else (none, afterFrac)
        | [] => (none, afterFrac)
      some (sign ++ body ++ ex.getD [], afterEx)
    else none

mutual

/-- Fueled recursive-descent parser for one JSON value; the input is assumed
already stripped of leading whitespace. -/
def parseValue : Nat → List Char → Option (Json × List Char)
  | 0, _ => none
  | _ + 1, [] => none
  | fuel + 1, c :: rest =>
    if c = '\x7b' then parseObjBody fuel (skipWs rest) []
    else if c = '[' then parseArrBody fuel (skipWs rest) []
    else if c = '"' then (parseStringRest rest).map (fun r => (Json.str (String.mk r.1), r.2))
    else if listStarts ['t', 'r', 'u', 'e'] (c :: rest) then
      some (Json.bool true, (c :: rest).drop 4)
    else if listStarts ['f', 'a', 'l', 's', 'e'] (c :: rest) then
      some (Json.bool false, (c :: rest).drop 5)
    else if listStarts ['n', 'u', 'l', 'l'] (c :: rest) then
      some (Json.null, (c :: rest).drop 4)
    else (parseNumberLex (c :: rest)).map (fun r => (Json.num (String.mk r.1), r.2))

/-- Parse the members of a JSON object (opening brace consumed, whitespace
skipped, accumulated fields passed along). -/
def parseObjBody : Nat → List Char → List (String × Json) → Option (Json × List Char)
  | 0, _, _ => none
  | _ + 1, [], _ => none
  | fuel + 1, c :: rest, acc =>
    if c = '\x7d' then
      if acc.isEmpty then some (Json.obj [], rest) else none
    else if c = '"' then
      match parseStringRest rest with
      | none => none
      | some (key, afterKey) =>
        match skipWs afterKey with
        | ':' :: afterColon =>
          match parseValue fuel (skipWs afterColon) with
          | none => none
          | some (v, afterVal) =>
            match skipWs afterVal with
            | ',' :: afterComma =>
              parseObjBody fuel (skipWs afterComma) (acc ++ [(String.mk key, v)])
            | '\x7d' :: afterBrace => some (Json.obj (acc ++ [(String.mk key, v)]), afterBrace)
            | _ => none
        | _ => none
    else none

/-- Parse the elements of a JSON array (opening bracket consumed, whitespace
skipped, accumulated elements passed along). -/
def parseArrBody : Nat → List Char → List Json → Option (Json × List Char)
  | 0, _, _ => none
  | _ + 1, [], _ => none
  | fuel + 1, c :: rest, acc =>
    if c = ']' then
      if acc.isEmpty then some (Json.arr [], rest) else none
    else
      match parseValue fuel (c :: rest) with
      | none => none
      | some (v, afterVal) =>
        match skipWs afterVal with
        | ',' :: afterComma => parseArrBody fuel (skipWs afterComma) (acc ++ [v])
        | ']' :: afterBracket => some (Json.arr (acc ++ [v]), afterBracket)
        | _ => none

end

/-- Model of JavaScript `JSON.parse`: `some` on valid JSON, `none` where the
JavaScript function throws. -/
def jsonParse (l : List Char) : Option Json :=
  match parseValue (4 * l.length + 16) (skipWs l) with
  | some (v, rest) => if (skipWs rest).isEmpty then some v else none
  | none => none

/-- `jsonParse` on a `String`. -/
def jsonParseStr (s : String) : Option Json :=
  jsonParse s.toList

/- ### JSON repair cascade (`src/renderer/services/llm/utils/common.js`) -/

/-- The special-token marker with a fullwidth bar, `<｜tool`. -/
def toolMarkFull : List Char := ['<', '｜', 't', 'o', 'o', 'l']

/-- The special-token marker with an ASCII bar, `<|tool`. -/
def toolMarkAscii : List Char := ['<', '|', 't', 'o', 'o', 'l']

/-- The escaped-quote pattern `\"`. -/
def escQPat : List Char := ['\\', '"']

/-- The two-character suffix pattern `"}`. -/
def quoteBracePat : List Char := ['"', '\x7d']

/-- Length of a match of `/<[｜|]tool[^>]*>/` when it starts at the head of
the input: `<`, a bar, `tool`, a maximal run of non-`>` characters, `>`. -/
def toolTokenAt (l : List Char) : Option Nat :=
  match l with
  | '<' :: sep :: 't' :: 'o' :: 'o' :: 'l' :: rest =>
    if sep = '|' || sep = '｜' then
      (strIdxOfSub ['>'] rest).map (fun j => j + 7)
    else none
  | _ => none

/-- Length of the first match of `/<[｜|]tool[^>]*>/` anywhere in the input
(the JavaScript code uses only the match length, not its position). -/
def findToolTokenLen : List Char → Option Nat
  | [] => none
  | c :: rest =>
    match toolTokenAt (c :: rest) with
    | some n => some n
    | none => findToolTokenLen rest

/-- Length of the match of `/"\}+$/`: the leftmost `"` that is followed only
by `\x7d` characters up to the end of the string, at least one of them. -/
def quoteBracesLen : List Char → Option Nat
  | [] => none
  | c :: rest =>
    if c = '"' && !rest.isEmpty && rest.all (· = '\x7d') then some (rest.length + 1)
    else quoteBracesLen rest

/-- Step 1 of `safeJsonParse`: strip a leading special token.  The code drops
as many characters from the FRONT of the string as the length of the first
regex match, wherever that match occurred. -/
def skjToken (cs : List Char) : List Char :=
  if containsSub toolMarkFull cs || containsSub toolMarkAscii cs then
    match findToolTokenLen cs with
    | some n => cs.drop n
    | none => cs
  else cs

/-- Steps 1–2 of `safeJsonParse`: the `cleanStr` value after the conditional
removal of extra trailing `"\x7d...` characters, which happens only when the
string contains `\"` and the last `\"` lies before the trailing match. -/
def skjTrimmed (cs : List Char) : List Char :=
  let c1 := skjToken cs
  if containsSub escQPat c1 then
    match quoteBracesLen c1 with
    | some mlen =>
      if lastIdxOfSubInt escQPat c1 < (c1.length : Int) - (mlen : Int) then
        c1.take (c1.length - mlen + 1)
      else c1
    | none => c1
  else c1

/-- The candidate string tried by the double-escape heuristic of
`safeJsonParse` (step 3): all `\"` replaced by `"`. -/
def skjUnescaped (cs : List Char) : List Char :=
  replEscQ (skjTrimmed cs)

/-- The candidate string tried by the special-MCP-format heuristic of
`safeJsonParse`: drop one trailing character when the string ends in `"\x7d`,
then replace all `\"` by `"`. -/
def skjSpecial (cs : List Char) : List Char :=
  let c2 := skjTrimmed cs
  replEscQ (if listEnds quoteBracePat c2 then c2.dropLast else c2)

/-- The candidate string tried by the last-resort branch of `safeJsonParse`:
the original input minus its final character. -/
def skjFallback (cs : List Char) : List Char :=
  cs.dropLast

/-- Shallow embedding of `safeJsonParse(jsonStr, defaultValue)`
(`common.js` lines 13–97).  Every `JSON.parse` call of the source is a
`jsonParse` application here; `try`/`catch` fall-throughs become `Option`
matches. -/
def safeJsonParse (cs : List Char) (defaultValue : Json) : Json :=
  if cs.isEmpty then defaultValue
  else
    let c1 := skjToken cs
    let c2 := skjTrimmed cs
    let try1 : Option Json :=
      if containsSub escQPat c1 && listStarts ['\x7b', '\\', '"'] c2 then
        jsonParse (skjUnescaped cs)
      else none
    match try1 with
    | some v => v
    | none =>
      let try2 : Option Json :=
        if containsSub escQPat c2 && listEnds quoteBracePat c2 then
          jsonParse (skjSpecial cs)
        else none
      match try2 with
      | some v => v
      | none =>
        match jsonParse c2 with
        | some v => v
        | none =>
          if listEnds quoteBracePat cs then
            match jsonParse (skjFallback cs) with
            | some v => v
            | none => defaultValue
          else defaultValue

/-- Find the index of the first occurrence of ```` ``` ```` in the input. -/
def fenceIdx (l : List Char) : Option Nat :=
  strIdxOfSub ['`', '`', '`'] l

/-- Match of the code-fence regex ``` /```(?:\w*\n)?([\s\S]*?)```/ ```:
returns the captured group.  The optional language header (a maximal word run
followed by a newline) is tried first; the lazy body ends at the nearest
closing fence. -/
def fenceMatch (l : List Char) : Option (List Char) :=
  match fenceIdx l with
  | none => none
  | some i =>
    let p0 := l.drop (i + 3)
    let w := p0.takeWhile isWordChar
    let afterW := p0.drop w.length
    let attemptHeader : Option (List Char) :=
      match afterW with
      | '\n' :: afterNl => (fenceIdx afterNl).map (fun j => afterNl.take j)
      | _ => none
    match attemptHeader with
    | some content => some content
    | none => (fenceIdx p0).map (fun j => p0.take j)

/-- Match of the function-call regex `/^\s*\w+\s*\(([\s\S]*?)\)\s*$/`:
whitespace, a word, whitespace, `(`, a lazy body, `)`, trailing whitespace.
The lazy body ends at the first `)` whose tail is whitespace only. -/
def funcCallBody (l : List Char) : Option (List Char) :=
  let afterWs := l.dropWhile isWsChar
  let w := afterWs.takeWhile isWordChar
  if w.isEmpty then none
  else
    match (afterWs.drop w.length).dropWhile isWsChar with
    | '(' :: inner =>
      let rec go (seen : List Char) (rest : List Char) : Option (List Char) :=
        match rest with
        | [] => none
        | ')' :: tail =>
          if tail.all isWsChar then some seen.reverse
          else go (')' :: seen) tail
        | c :: tail => go (c :: seen) tail
      go [] inner
    | _ => none

/-- Drop the final character while the string ends in `"\x7d`
(the `while` loop of the single-escape heuristic). -/
def stripQBrec : Nat → List Char → List Char
  | 0, l => l
  | n + 1, l => if listEnds quoteBracePat l then stripQBrec n l.dropLast else l

/-- Fueled wrapper for `stripQBrec` with enough fuel for the whole string. -/
def stripQB (l : List Char) : List Char :=
  stripQBrec l.length l

/-- Index of the leftmost match of `/"\x7d"+$/`: a `"`, a `\x7d`, then one or
more `"` reaching the end of the string. -/
def findQBQ : List Char → Option Nat
  | [] => none
  | c :: rest =>
    match rest with
    | '\x7d' :: qs =>
      if c = '"' && !qs.isEmpty && qs.all (· = '"') then some 0
      else (findQBQ rest).map (· + 1)
    | _ => (findQBQ rest).map (· + 1)

/-- JavaScript `replace(/"\x7d"+$/, "\x7d")`. -/
def replQBQ (l : List Char) : List Char :=
  match findQBQ l with
  | some i => l.take i ++ ['\x7d']
  | none => l

/-- The result of the code-fence and function-call extraction step of
`parseMCPToolParams` (lines 112–124 of `common.js`). -/
def mcpFenced (cs : List Char) : List Char :=
  match fenceMatch cs with
  | some content =>
    let extracted := trimWs content
    match funcCallBody extracted with
    | some inner => inner
    | none => extracted
  | none => cs

/-- The `paramStr` value after trimming and stripping leading quotes,
apostrophes and whitespace (line 127 of `common.js`). -/
def mcpP1 (cs : List Char) : List Char :=
  stripLeading (fun c => c = '"' || c = '\'' || isWsChar c) (trimWs (mcpFenced cs))

/-- Candidate of the streaming-extraction heuristic: the region from the
first `\x7b` to the last `\x7d`, with `\"` unescaped; `none` when the brace
test fails. -/
def mcpBraceCand (cs : List Char) : Option (List Char) :=
  let p1 := mcpP1 cs
  match strIdxOfSub ['\x7b'] p1, lastIdxOfSub ['\x7d'] p1 with
  | some fb, some lb =>
    if fb < lb then some (replEscQ ((p1.drop fb).take (lb + 1 - fb))) else none
  | _, _ => none

/-- Candidate of the quote-space heuristic (`" "` or `" \x7b` prefixes). -/
def mcpQuoteSpaceCand (cs : List Char) : List Char :=
  let p1 := mcpP1 cs
  let c1 :=
    match p1 with
    | '"' :: rest =>
      let ws := rest.takeWhile isWsChar
      if !ws.isEmpty then
        match rest.drop ws.length with
        | '"' :: tail => tail
        | _ => p1
      else p1
    | _ => p1
  replEscQ (replQBQ c1)

/-- Candidate of the multi-layer escape heuristic (`\\"` present). -/
def mcpMultiCand (cs : List Char) : List Char :=
  let p1 := mcpP1 cs
  let m1 := stripLeading (fun c => c = '"' || c = '\'' || isWsChar c) p1
  let m2 := stripTrailing (fun c => c = '"' || c = '\'' || c = '\x7d') m1
  let m3 :=
    if !listStarts ['\x7b'] m2 && containsSub ['\x7b'] m2 then
      match strIdxOfSub ['\x7b'] m2 with
      | some i => m2.drop i
      | none => m2
    else m2
  replEscQ (replDblEscQ m3)

/-- Candidate of the single-layer escape heuristic, first form (the string
ends in `"\x7d` or `"\x7d"\x7d`): repeatedly drop the final character while
the `"\x7d` suffix remains, then unescape. -/
def mcpSingleEndCand (cs : List Char) : List Char :=
  replEscQ (stripQB (mcpP1 cs))

/-- Candidate of the single-layer escape heuristic, general form: clip to the
outermost braces when present, then unescape. -/
def mcpSingleGenCand (cs : List Char) : List Char :=
  let p1 := mcpP1 cs
  let t1 :=
    if !listStarts ['\x7b'] p1 && containsSub ['\x7b'] p1 then
      match strIdxOfSub ['\x7b'] p1 with
      | some i => p1.drop i
      | none => p1
    else p1
  let t2 :=
    if !listEnds ['\x7d'] t1 && containsSub ['\x7d'] t1 then
      match lastIdxOfSub ['\x7d'] t1 with
      | some i => t1.take (i + 1)
      | none => t1
    else t1
  replEscQ t2

/-- Candidate of the quote-wrapped heuristic: drop the outer quotes, then
unescape `\"` and `\\`. -/
def mcpQuoteWrapCand (cs : List Char) : List Char :=
  let p1 := mcpP1 cs
  replDblBS (replEscQ (p1.drop 1).dropLast)

/-- Shallow embedding of `parseMCPToolParams(paramStr)` (`common.js` lines
105–272): the prioritized cascade of repair heuristics, falling back to
`safeJsonParse` with an empty-object default. -/
def parseMCPToolParams (cs : List Char) : Json :=
  if cs.isEmpty then Json.obj []
  else
    let p1 := mcpP1 cs
    let tryBrace : Option Json :=
      match mcpBraceCand cs with
      | some cand => jsonParse cand
      | none => none
    match tryBrace with
    | some v => v
    | none =>
      let tryQS : Option Json :=
        if listStarts ['"', ' ', '"'] p1 || listStarts ['"', ' ', '\x7b'] p1 then
          jsonParse (mcpQuoteSpaceCand cs)
        else none
      match tryQS with
      | some v => v
      | none =>
        let tryMulti : Option Json :=
          if containsSub ['\\', '\\', '"'] p1 then jsonParse (mcpMultiCand cs)
          else none
        match tryMulti with
        | some v => v
        | none =>
          let trySingle : Option Json :=
            if containsSub escQPat p1 then
              if listEnds quoteBracePat p1 ||
                  listEnds ['"', '\x7d', '"', '\x7d'] p1 then
                jsonParse (mcpSingleEndCand cs)
              else jsonParse (mcpSingleGenCand cs)
            else none
          match trySingle with
          | some v => v
          | none =>
            let tryWrap : Option Json :=
              if listStarts ['"'] p1 && listEnds ['"'] p1 then
                jsonParse (mcpQuoteWrapCand cs)
              else none
            match tryWrap with
            | some v => v
            | none => safeJsonParse p1 (Json.obj [])

/-- `parseMCPToolParams` on a `String`. -/
def parseMCPToolParamsStr (s : String) : Json :=
  parseMCPToolParams s.toList

/- ### Tool-call delta assembler (`baseAdapter.js` lines 203–247) -/

/-- The `function` part of a streamed tool call. -/
structure ToolCallFn where
  name : String := ""
  arguments : String := ""
deriving DecidableEq, Repr

/-- One accumulated tool call, as assembled by the base adapter. -/
structure ToolCall where
  index : Nat
  id : String := ""
  type : String := ""
  function : ToolCallFn := {}
deriving DecidableEq, Repr

/-- The `function` part of one streamed delta. -/
structure DeltaFn where
  name : Option String := none
  arguments : Option String := none
deriving DecidableEq, Repr

/-- One entry of a `delta.tool_calls` array. -/
structure ToolCallDelta where
  index : Nat
  id : Option String := none
  type : Option String := none
  function : Option DeltaFn := none
deriving DecidableEq, Repr

/-- JavaScript truthiness of an optional string field: present and
non-empty. -/
def optTruthy : Option String → Bool
  | some s => !(s = "")
  | none => false

/-- The `id`/`type` updates of one delta (`if (id) ...; if (type) ...`):
each field is overwritten when the delta carries a truthy value. -/
def applyDeltaIdType (tc : ToolCall) (d : ToolCallDelta) : ToolCall :=
  let tc1 := if optTruthy d.id then { tc with id := d.id.getD "" } else tc
  if optTruthy d.type then { tc1 with type := d.type.getD "" } else tc1

/-- Apply the field updates of one delta to one accumulated tool call:
`id` and `type` are overwritten when truthy, `function.name` is overwritten
when truthy, and `function.arguments` is appended. -/
def applyDeltaFields (tc : ToolCall) (d : ToolCallDelta) : ToolCall :=
  let tc2 := applyDeltaIdType tc d
  match d.function with
  | none => tc2
  | some f =>
    let tc3 :=
      if optTruthy f.name then
        { tc2 with function := { tc2.function with name := f.name.getD "" } }
      else tc2
    if optTruthy f.arguments then
      { tc3 with
        function :=
          { tc3.function with
            arguments := tc3.function.arguments ++ f.arguments.getD "" } }
    else tc3

/-- A fresh tool call created when a delta mentions an unseen index. -/
def blankToolCall (d : ToolCallDelta) : ToolCall :=
  { index := d.index, id := d.id.getD "", type := d.type.getD "",
    function := { name := "", arguments := "" } }

/-- Update the first accumulated entry whose `index` matches the delta
(JavaScript `Array.prototype.find` returns the first match, which is then
mutated in place); `none` when no entry matches. -/
def updateFirstToolCall (d : ToolCallDelta) : List ToolCall → Option (List ToolCall)
  | [] => none
  | tc :: rest =>
    if tc.index = d.index then some (applyDeltaFields tc d :: rest)
    else (updateFirstToolCall d rest).map (tc :: ·)

/-- Process one streamed tool-call delta against the accumulated list: merge
into the existing entry with the same index, or push a fresh entry (to which
the same field updates are applied, mirroring the create-then-update flow of
the source). -/
def applyToolCallDelta (tcs : List ToolCall) (d : ToolCallDelta) : List ToolCall :=
  match updateFirstToolCall d tcs with
  | some updated => updated
  | none => tcs ++ [applyDeltaFields (blankToolCall d) d]

/-- Process a whole sequence of tool-call deltas in arrival order. -/
def assembleToolCalls (ds : List ToolCallDelta) : List ToolCall :=
  ds.foldl applyToolCallDelta []

/- ### Tool invocation (`toolHandler.js` lines 16–111) -/

/-- One entry of the MCP tool catalog (external input). -/
structure MCPTool where
  id : String
  name : String
  serverId : String
deriving DecidableEq, Repr

/-- Result of the external tool executor `mcpService.callTool` (a collaborator
of the modelled core; it reports failure via `success = false`). -/
structure ExecResult where
  success : Bool
  result : Json := Json.null
  message : String := ""

/-- The external tool executor, addressed by server id and tool id. -/
def Executor : Type :=
  String → String → Json → ExecResult

/-- The object returned by `handleToolCall`: the source returns
`{success, toolName, result}` on success, `{success:false, error}` from its
`catch`, and `{success:false, message}` from the parameter-parse branch;
absent fields are modelled as defaults. -/
structure ToolOutcome where
  success : Bool
  toolName : String := ""
  result : Json := Json.null
  error : String := ""
  message : String := ""

/-- The i18n key `error.toolNotFound`, interpolated with the tool id.
Locale data is external to the modelled core; messages are represented by
their key. -/
def toolNotFoundMsg (id : String) : String :=
  "error.toolNotFound: " ++ id

/-- The i18n key `error.toolExecutionFailed`, interpolated with the
underlying message. -/
def toolExecutionFailedMsg (m : String) : String :=
  "error.toolExecutionFailed: " ++ m

/-- The i18n key `error.toolParameterParseFailed`. -/
def toolParameterParseFailedMsg : String :=
  "error.toolParameterParseFailed"

/-- The argument string handed to the parameter parser:
`toolCall.function.arguments || "{}"`. -/
def toolArgsStr (tc : ToolCall) : String :=
  if tc.function.arguments = "" then "\x7b\x7d" else tc.function.arguments

/-- The parameter-parsing step as seen by `handleToolCall`: the source wraps
`parseMCPToolParams` in `try`/`catch`, so the step is typed as fallible even
though `parseMCPToolParams` always returns a value. -/
def parseMCPToolParamsE (cs : List Char) : Except String Json :=
  Except.ok (parseMCPToolParams cs)

/-- The body of `handleToolCall` up to its surrounding `try`/`catch`:
`Except.error` marks a thrown exception. -/
def handleToolCallE (tc : ToolCall) (mcpTools : List MCPTool) (executor : Executor) :
    Except String ToolOutcome :=
  match mcpTools.find? (fun t => t.id = tc.function.name) with
  | none => Except.error (toolNotFoundMsg tc.function.name)
  | some tool =>
    match parseMCPToolParamsE (toolArgsStr tc).toList with
    | Except.error _ => Except.ok { success := false, message := toolParameterParseFailedMsg }
    | Except.ok args =>
      let res := executor tool.serverId tool.id args
      if !res.success then Except.error (toolExecutionFailedMsg res.message)
      else Except.ok { success := true, toolName := tool.name, result := res.result }

/-- Shallow embedding of `handleToolCall(toolCall, mcpTools, onProgress)`:
the surrounding `try`/`catch` converts every thrown error into a
`{success:false, error}` result, so the function never rejects. -/
def handleToolCall (tc : ToolCall) (mcpTools : List MCPTool) (executor : Executor) :
    ToolOutcome :=
  match handleToolCallE tc mcpTools executor with
  | Except.ok o => o
  | Except.error e => { success := false, error := e }

/- ### Conversation recursion driver (`sendMessageToAI` in the AI service) -/

/-- One canonical wire-level message handed to a provider adapter. -/
structure LlmMsg where
  role : String
  content : String
  tool_calls : List ToolCall := []
  tool_call_id : String := ""

/-- One entry of the accumulated `toolCallResults` list. -/
structure ToolCallResult where
  id : String
  tool_id : String
  tool_name : String
  parameters : Json
  result : ToolOutcome
  status : String

/-- The data passed by an adapter to its completion callback. -/
structure Completion where
  content : String := ""
  reasoning_content : String := ""
  toolCalls : List ToolCall := []
  toolCallResults : List ToolCallResult := []

/-- A provider adapter, abstracted as a function from the outgoing message
list to the completion it reports (the driver's behaviour depends on the
adapter only through that completion). -/
def Adapter : Type :=
  List LlmMsg → Completion

/-- Serialize one string with basic JSON escaping, for the body of a
tool-role message. -/
def renderJsonString (s : String) : String :=
  "\"" ++ String.mk (s.toList.foldr
    (fun c acc =>
      if c = '"' then '\\' :: '"' :: acc
      else if c = '\\' then '\\' :: '\\' :: acc
      else if c = '\n' then '\\' :: 'n' :: acc
      else if c = '\r' then '\\' :: 'r' :: acc
      else if c = '\t' then '\\' :: 't' :: acc
      else c :: acc) []) ++ "\""

mutual

/-- Serialize a `Json` value (compact rendering standing in for
`JSON.stringify`; the exact layout is not load-bearing for any claim). -/
def Json.render : Json → String
  | Json.null => "null"
  | Json.bool b => if b then "true" else "false"
  | Json.num lexeme => lexeme
  | Json.str s => renderJsonString s
  | Json.arr elems => "[" ++ Json.renderList elems ++ "]"
  | Json.obj fields => "\x7b" ++ Json.renderFields fields ++ "\x7d"

/-- Serialize array elements. -/
def Json.renderList : List Json → String
  | [] => ""
  | [x] => Json.render x
  | x :: xs => Json.render x ++ "," ++ Json.renderList xs

/-- Serialize object fields. -/
def Json.renderFields : List (String × Json) → String
  | [] => ""
  | [(k, v)] => renderJsonString k ++ ":" ++ Json.render v
  | (k, v) :: xs => renderJsonString k ++ ":" ++ Json.render v ++ "," ++ Json.renderFields xs

end

/-- Serialize a `ToolOutcome` the way `JSON.stringify(toolResult, null, 2)`
serializes the corresponding JavaScript object (field layout compacted). -/
def stringifyOutcome (o : ToolOutcome) : String :=
  if o.success then
    Json.render (Json.obj
      [("success", Json.bool true), ("toolName", Json.str o.toolName), ("result", o.result)])
  else if o.message = "" then
    Json.render (Json.obj [("success", Json.bool false), ("error", Json.str o.error)])
  else
    Json.render (Json.obj [("success", Json.bool false), ("message", Json.str o.message)])

/-- The record pushed onto `toolCallResults` for one processed tool call. -/
def mkToolCallResult (tc : ToolCall) (tr : ToolOutcome) (mcpTools : List MCPTool) :
    ToolCallResult :=
  { id := tc.id
    tool_id := tc.function.name
    tool_name :=
      match mcpTools.find? (fun t => t.id = tc.function.name) with
      | some t => t.name
      | none => tc.function.name
    parameters := parseMCPToolParamsStr tc.function.arguments
    result := tr
    status := if tr.success then "success" else "error" }

/-- The tool-processing phase of the driver's completion handler: append the
assistant turn carrying the tool calls, then, strictly sequentially, invoke
each tool call of type `"function"` and append one tool-role message per
result.  Returns the extended message list and the `toolCallResults` of this
level. -/
def processToolCalls (msgs : List LlmMsg) (comp : Completion) (mcpTools : List MCPTool)
    (executor : Executor) : List LlmMsg × List ToolCallResult :=
  let base : List LlmMsg :=
    msgs ++ [{ role := "assistant", content := comp.content, tool_calls := comp.toolCalls }]
  comp.toolCalls.foldl
    (fun acc tc =>
      if tc.type = "function" then
        let tr := handleToolCall tc mcpTools executor
        (acc.1 ++ [{ role := "tool", tool_call_id := tc.id, content := stringifyOutcome tr }],
         acc.2 ++ [mkToolCallResult tc tr mcpTools])
      else acc)
    (base, [])

/-- The fixed maximum recursion depth of the driver. -/
def maxRecursionDepth : Nat := 50

/-- The i18n key `chat.mcpTools.maxToolCallsReached` (represented by its
key; locale data is external to the modelled core). -/
def maxToolCallsReachedMsg : String :=
  "chat.mcpTools.maxToolCallsReached"

/-- The suffix appended to the visible content when the recursion cap is
reached: `"\n\n[" + t("chat.mcpTools.maxToolCallsReached") + "]"`. -/
def truncationSuffix : String :=
  "\n\n[" ++ maxToolCallsReachedMsg ++ "]"

/-- Shallow embedding of the recursive driver `sendMessageToAI`: one call
models one model invocation; `depth` is `options._recursionDepth || 1`.  When
the completion reports tool calls, the driver processes them, stops with the
truncation suffix at depth ≥ 50, and otherwise recurses on the extended
message list; the wrapped completion callback of the source corresponds to
prepending this level's `toolCallResults` to the recursive result.  The
returned `Completion` is the value handed to the original completion
callback. -/
def sendMessageToAI (adapter : Adapter) (mcpTools : List MCPTool) (executor : Executor)
    (msgs : List LlmMsg) (depth : Nat) : Completion :=
  let comp := adapter msgs
  if comp.toolCalls.length > 0 then
    let step := processToolCalls msgs comp mcpTools executor
    let toolCallResults := comp.toolCallResults ++ step.2
    if maxRecursionDepth ≤ depth then
      { comp with
        content := comp.content ++ truncationSuffix
        toolCallResults := toolCallResults }
    else
      let fin := sendMessageToAI adapter mcpTools executor step.1 (depth + 1)
      { fin with toolCallResults := toolCallResults ++ fin.toolCallResults }
  else comp
termination_by maxRecursionDepth - depth
decreasing_by simp only [maxRecursionDepth] at *; omega

/-- The number of model invocations (adapter calls) performed by
`sendMessageToAI`, defined with the same recursion structure. -/
def modelInvocations (adapter : Adapter) (mcpTools : List MCPTool) (executor : Executor)
    (msgs : List LlmMsg) (depth : Nat) : Nat :=
  let comp := adapter msgs
  if comp.toolCalls.length > 0 then
    let step := processToolCalls msgs comp mcpTools executor
    if maxRecursionDepth ≤ depth then 1
    else 1 + modelInvocations adapter mcpTools executor step.1 (depth + 1)
  else 1
termination_by maxRecursionDepth - depth
decreasing_by simp only [maxRecursionDepth] at *; omega

/- ### Context-window truncation (`parseNeedSendMessage` in `App.jsx`) -/

/-- One item of a stored message's structured content (`createMessageContent`
produces `{type, content, status}` objects; the JSON serialization that the
store applies around this list is incidental and omitted). -/
structure ContentItem where
  type : String
  content : String
  status : String
deriving DecidableEq, Repr

/-- One stored conversation message as read back from the session store. -/
structure StoredMsg where
  role : String
  status : String
  createdAt : Nat
  content : List ContentItem
deriving DecidableEq, Repr

/-- One outgoing turn produced by `parseNeedSendMessage`. -/
structure SendMsg where
  role : String
  content : String
deriving DecidableEq, Repr

/-- Stable insertion of a message into a list already sorted by `createdAt`. -/
def insertByTime (m : StoredMsg) : List StoredMsg → List StoredMsg
  | [] => [m]
  | x :: xs =>
    if m.createdAt ≤ x.createdAt then m :: x :: xs else x :: insertByTime m xs

/-- Stable ascending sort by `createdAt`, modelling
`sort((a, b) => new Date(a.createdAt) - new Date(b.createdAt))`. -/
def sortByCreatedAt : List StoredMsg → List StoredMsg
  | [] => []
  | x :: xs => insertByTime x (sortByCreatedAt xs)

/-- One valid message: the original role and status together with the
extracted main text. -/
structure ValidMsg where
  role : String
  status : String
  content : String
deriving DecidableEq, Repr

/-- The `validMessages` list of `parseNeedSendMessage` (lines 286–306). -/
def validMessages (l : List StoredMsg) : List ValidMsg :=
  l.filterMap (fun m =>
    if m.content.isEmpty then none
    else
      match m.content.find? (fun item => item.type = "content") with
      | some item =>
        if item.content = "" then none
        else some { role := m.role, status := m.status, content := item.content }
      | none => none)

/-- Find the first assistant message in a list, returning it together with
the remainder of the list after it (the loop resumes at index `j + 1`,
so the messages skipped over are dropped). -/
def findNextAssistant : List ValidMsg → Option (ValidMsg × List ValidMsg)
  | [] => none
  | m :: rest =>
    if m.role = "assistant" then some (m, rest) else findNextAssistant rest

/-- The remainder returned by `findNextAssistant` is no longer than the
input. -/
theorem findNextAssistant_length : ∀ {l : List ValidMsg} {a : ValidMsg}
    {rest : List ValidMsg}, findNextAssistant l = some (a, rest) → rest.length ≤ l.length := by
  intro l
  induction l with
  | nil => intro a rest h; simp [findNextAssistant] at h
  | cons m tail ih =>
    intro a rest h
    simp only [findNextAssistant] at h
    split at h
    · injection h with h2
      injection h2 with h3 h4
      subst h4
      exact Nat.le_succ tail.length
    · exact le_trans (ih h) (Nat.le_succ _)

/-- The pairing loop of `parseNeedSendMessage` (lines 308–365), written with
explicit fuel (each iteration consumes at least one message, so the list
length is enough fuel): pair each user turn with the next assistant turn,
drop the pair when that assistant turn has status `"error"`, keep a trailing
user turn without a partner, and skip stray assistant turns. -/
def buildAlternatingRec : Nat → List ValidMsg → List SendMsg
  | 0, _ => []
  | fuel + 1, l =>
    match l with
    | [] => []
    | m :: rest =>
      if m.role = "user" then
        match findNextAssistant rest with
        | some (a, after) =>
          if a.status = "error" then buildAlternatingRec fuel after
          else
            { role := "user", content := m.content } ::
            { role := "assistant", content := a.content } :: buildAlternatingRec fuel after
        | none => { role := "user", content := m.content } :: buildAlternatingRec fuel rest
      else buildAlternatingRec fuel rest

/-- The pairing loop at its natural fuel. -/
def buildAlternating (l : List ValidMsg) : List SendMsg :=
  buildAlternatingRec l.length l

/-- Index of the first user message (JavaScript
`findIndex((msg) => msg.role === "user")`). -/
def findIdxUser : List SendMsg → Option Nat
  | [] => none
  | m :: rest =>
    if m.role = "user" then some 0 else (findIdxUser rest).map (· + 1)

/-- Index of the last user message (the backwards `for` loops of the
source). -/
def lastUserIdx : List SendMsg → Option Nat
  | [] => none
  | m :: rest =>
    match lastUserIdx rest with
    | some i => some (i + 1)
    | none => if m.role = "user" then some 0 else none

/-- Splice the element at index `i` out of the list and prepend it
(`splice(i, 1)` followed by `unshift`). -/
def moveIdxFront (l : List SendMsg) (i : Nat) : List SendMsg :=
  match l.get? i with
  | some m => m :: l.eraseIdx i
  | none => l

/-- Stage "ensure the first message is a user message" (lines 375–389). -/
def ensureFirstUser (l : List SendMsg) : List SendMsg :=
  match l.head? with
  | none => l
  | some m =>
    if m.role = "user" then l
    else
      match findIdxUser l with
      | some i => if 0 < i then moveIdxFront l i else l
      | none => l

/-- Stage "ensure the last message is a user message" (lines 391–406): when
the last element is not a user turn, the last user turn strictly before it is
spliced out and pushed to the end. -/
def ensureLastUser (l : List SendMsg) : List SendMsg :=
  match l.getLast? with
  | none => l
  | some m =>
    if m.role = "user" then l
    else
      match lastUserIdx l.dropLast with
      | some i =>
        match l.get? i with
        | some u => l.eraseIdx i ++ [u]
        | none => l
      | none => l

/-- `slice(-maxMessages)`: the last `maxMessages` elements. -/
def limitWindow (maxMessages : Nat) (l : List SendMsg) : List SendMsg :=
  l.drop (l.length - maxMessages)

/-- The truncation step applied when a finite limit is exceeded (lines
408–469): keep the last `maxMessages` turns, rotate the first user turn to
the front, and drop the element at index 1 if the rotation made the list
exceed the limit (rotation preserves length, so that drop never fires). -/
def limitStep (maxMessages : Nat) (l : List SendMsg) : List SendMsg :=
  match (limitWindow maxMessages l).head? with
  | none => limitWindow maxMessages l
  | some m =>
    if m.role = "user" then limitWindow maxMessages l
    else
      match findIdxUser (limitWindow maxMessages l) with
      | some i =>
        if 0 < i then
          if maxMessages < (moveIdxFront (limitWindow maxMessages l) i).length then
            (moveIdxFront (limitWindow maxMessages l) i).eraseIdx 1
          else moveIdxFront (limitWindow maxMessages l) i
        else limitWindow maxMessages l
      | none => limitWindow maxMessages l

/-- Stage "apply the message count limit" (the surrounding guard of lines
408–474). -/
def afterLimit (noLimit : Bool) (maxMessages : Nat) (l : List SendMsg) : List SendMsg :=
  if !noLimit && 0 < maxMessages && maxMessages < l.length then limitStep maxMessages l
  else l

/-- The final strict-alternation filter (lines 486–496): keep messages whose
role matches the expected role, which flips after every kept message. -/
def altFilter : List SendMsg → String → List SendMsg
  | [], _ => []
  | m :: rest, expected =>
    if m.role = expected then
      m :: altFilter rest (if expected = "user" then "assistant" else "user")
    else altFilter rest expected

/-- The final pass (lines 486–510): alternation filter, then, when the result
does not end in a user turn, append the last user turn of the pre-filter
list. -/
def finalPass (alt : List SendMsg) : List SendMsg :=
  match (altFilter alt "user").getLast? with
  | none => altFilter alt "user"
  | some m =>
    if m.role = "user" then altFilter alt "user"
    else
      match lastUserIdx alt with
      | some i =>
        match alt.get? i with
        | some u => altFilter alt "user" ++ [u]
        | none => altFilter alt "user"
      | none => altFilter alt "user"

/-- The special case `maxMessages === 1` (lines 476–484) followed by the
final pass: with limit 1 the first user turn of the truncated list is
returned alone; otherwise (and when no user turn exists) the final pass
runs. -/
def limitOnePass (maxMessages : Nat) (l : List SendMsg) : List SendMsg :=
  if maxMessages = 1 then
    match findIdxUser l with
    | some i =>
      match l.get? i with
      | some m => [m]
      | none => finalPass l
    | none => finalPass l
  else finalPass l

/-- Shallow embedding of `parseNeedSendMessage(allMessage)` (`App.jsx` lines
263–516) for context settings `noLimit` and `maxMessages`. -/
def parseNeedSendMessage (noLimit : Bool) (maxMessages : Nat)
    (allMessage : List StoredMsg) : List SendMsg :=
  if allMessage.isEmpty then []
  else if (buildAlternating (validMessages (sortByCreatedAt allMessage))).isEmpty then []
  else
    limitOnePass maxMessages
      (afterLimit noLimit maxMessages
        (ensureLastUser (ensureFirstUser
          (buildAlternating (validMessages (sortByCreatedAt allMessage))))))

/- ### Stop-generation handling (`handleStopGeneration` in `App.jsx`) -/

/-- One message record of the local chat state (`messages` in the hook);
`content` holds the structured content items (`parsedContent` mirrors it and
the JSON serialization is incidental). -/
structure UiMsg where
  id : Nat
  role : String
  status : String
  content : List ContentItem
deriving DecidableEq, Repr

/-- The slice of hook state that stop-generation manipulates. -/
structure ChatState where
  messages : List UiMsg
  currentAIMessageId : Option Nat
  isSending : Bool
deriving DecidableEq, Repr

/-- The i18n key `chat.userTerminatedGeneration` (represented by its key;
locale data is external to the modelled core). -/
def userTerminatedGenerationMsg : String :=
  "chat.userTerminatedGeneration"

/-- The content written by `handleStopGeneration`:
`[createMessageContent("content", t("chat.userTerminatedGeneration"), "error")]`.
`createMessageContent` lives in the message service module; its
`{type, content, status}` shape is the one consumed throughout `App.jsx`. -/
def terminationContent : List ContentItem :=
  [{ type := "content", content := userTerminatedGenerationMsg, status := "error" }]

/-- The content items built by `updateAIMessage(messageId, content,
reasoning_content, status)` (lines 546–610; the tool-call item is omitted
because the modelled states carry no tool-call results). -/
def mkAIMessageContent (content reasoning status : String) : List ContentItem :=
  { type := "content", content := content, status := status } ::
    (if reasoning = "" then [] else
      [{ type := "reasoning_content", content := reasoning, status := status }])

/-- The local-state effect of `updateAIMessage`: rewrite the matching message
with the new content items and status. -/
def updateAIMessageState (st : ChatState) (messageId : Nat)
    (content reasoning status : String) : ChatState :=
  { st with
    messages := st.messages.map (fun m =>
      if m.id = messageId then
        { m with status := status, content := mkAIMessageContent content reasoning status }
      else m) }

/-- Shallow embedding of `handleStopGeneration` (`App.jsx` lines 984–1051):
when a generation is in flight, the network request is aborted and the
in-progress assistant message is rewritten to the termination marker with
status `"error"`; the tracked id and the sending flag are cleared. -/
def handleStopGeneration (st : ChatState) : ChatState :=
  match st.currentAIMessageId with
  | none => st
  | some mid =>
    { messages := st.messages.map (fun m =>
        if m.id = mid then { m with status := "error", content := terminationContent }
        else m)
      currentAIMessageId := none
      isSending := false }

/-- The error callback of `sendMessageToAI` in the hook (lines 838–853): an
`AbortError` is ignored (cancellation was already handled by
`handleStopGeneration`); any other error finalizes the assistant message
with the error text and status `"error"`. -/
def onAIServiceError (errName errMessage : String) (aiMessageId : Nat) (st : ChatState) :
    ChatState :=
  if errName = "AbortError" then st
  else
    let st2 := updateAIMessageState st aiMessageId errMessage "" "error"
    { st2 with currentAIMessageId := none, isSending := false }

/- ### A family of well-formed conversations (for the limit-1 claim) -/

/-- A stored user message with creation time `2 * i` and given text. -/
def mkUserMsg (cu : Nat → String) (i : Nat) : StoredMsg :=
  { role := "user", status := "success", createdAt := 2 * i,
    content := [{ type := "content", content := cu i, status := "success" }] }

/-- A stored assistant message with creation time `2 * i + 1` and given
text. -/
def mkAsstMsg (ca : Nat → String) (i : Nat) : StoredMsg :=
  { role := "assistant", status := "success", createdAt := 2 * i + 1,
    content := [{ type := "content", content := ca i, status := "success" }] }

/-- A chronologically ordered conversation of `n` user/assistant pairs
starting at index `i`, closed by a final user turn. -/
def convFrom (cu ca : Nat → String) (i : Nat) : Nat → List StoredMsg
  | 0 => [mkUserMsg cu i]
  | n + 1 => mkUserMsg cu i :: mkAsstMsg ca i :: convFrom cu ca (i + 1) n

/-- A full conversation of `n` pairs and a final user turn. -/
def conv (cu ca : Nat → String) (n : Nat) : List StoredMsg :=
  convFrom cu ca 0 n

/- ### Supporting lemmas -/

theorem containsSub_cons (pat : List Char) (c : Char) (rest : List Char) :
    containsSub pat (c :: rest) = (listStarts pat (c :: rest) || containsSub pat rest) := by
  by_cases h : listStarts pat (c :: rest) <;> simp [containsSub, strIdxOfSub, h]

theorem strIdxOfSub_eq_none_of_not_contains {pat l : List Char}
    (h : containsSub pat l = false) : strIdxOfSub pat l = none := by
  unfold containsSub at h
  cases hx : strIdxOfSub pat l with
  | none => rfl
  | some i => rw [hx] at h; simp at h

theorem containsSub_tail {pat : List Char} {c : Char} {rest : List Char}
    (h : containsSub pat (c :: rest) = false) : containsSub pat rest = false := by
  rw [containsSub_cons] at h
  exact (Bool.or_eq_false_iff.mp h).2

theorem listStarts_head_false {pat : List Char} {c : Char} {rest : List Char}
    (h : containsSub pat (c :: rest) = false) : listStarts pat (c :: rest) = false := by
  rw [containsSub_cons] at h
  exact (Bool.or_eq_false_iff.mp h).1

/-- `replace(/\\"/g, '"')` leaves a string without `\"` unchanged. -/
theorem replEscQ_eq_self : ∀ l : List Char, containsSub escQPat l = false → replEscQ l = l := by
  intro l
  induction l using replEscQ.induct with
  | case1 => intro _; rfl
  | case2 c => intro _; rfl
  | case3 c1 c2 rest hif ih =>
    intro h
    exfalso
    have h1 := listStarts_head_false h
    simp only [Bool.and_eq_true, decide_eq_true_eq] at hif
    simp [escQPat, listStarts, hif.1, hif.2] at h1
  | case4 c1 c2 rest hif ih =>
    intro h
    have h2 := containsSub_tail h
    rw [replEscQ, if_neg hif]
    rw [ih h2]

/-- A singleton-pattern `startsWith` exposes the head. -/
theorem listStarts_singleton {c : Char} {l : List Char} (h : listStarts [c] l = true) :
    ∃ t, l = c :: t := by
  cases l with
  | nil => simp [listStarts] at h
  | cons x t =>
    simp [listStarts] at h
    exact ⟨t, by rw [h]⟩

/-- The last occurrence of `\x7d` in a list that ends with `\x7d` is its last
index. -/
theorem lastIdxOfSub_append_brace :
    ∀ mid : List Char, lastIdxOfSub ['\x7d'] (mid ++ ['\x7d']) = some mid.length := by
  intro mid
  induction mid with
  | nil => rfl
  | cons c rest ih =>
    show lastIdxOfSub ['\x7d'] (c :: (rest ++ ['\x7d'])) = some (rest.length + 1)
    unfold lastIdxOfSub
    rw [ih]

/- ### Claim C3: repair of already-valid JSON -/

/-- Claim C3 fails as stated: the valid JSON string `"<|tool|>"` parses to a
JSON string value, but `safeJsonParse` strips the special-token match and
then fails every heuristic, returning the default empty object instead of
the parsed value. -/
theorem c3_counterexample_tool_token :
    jsonParseStr "\"<|tool|>\"" = some (Json.str "<|tool|>") ∧
    safeJsonParse ("\"<|tool|>\"").toList (Json.obj []) = Json.obj [] ∧
    Json.obj [] ≠ Json.str "<|tool|>" := by
  refine ⟨rfl, rfl, fun h => Json.noConfusion h⟩

/-- Claim C3, amended: the repair cascade is an idempotent passthrough on
valid JSON that contains neither a special tool-token marker nor the
escaped-quote sequence `\"`; `parseMCPToolParams` additionally requires the
input to be a brace-delimited object with no code fence. -/
theorem c3_repair_passthrough :
    (∀ (cs : List Char) (v : Json) (d : Json),
      jsonParse cs = some v →
      containsSub toolMarkFull cs = false →
      containsSub toolMarkAscii cs = false →
      containsSub escQPat cs = false →
      safeJsonParse cs d = v) ∧
    (∀ (mid : List Char) (v : Json),
      jsonParse ('\x7b' :: (mid ++ ['\x7d'])) = some v →
      containsSub ['`', '`', '`'] ('\x7b' :: (mid ++ ['\x7d'])) = false →
      containsSub escQPat ('\x7b' :: (mid ++ ['\x7d'])) = false →
      parseMCPToolParams ('\x7b' :: (mid ++ ['\x7d'])) = v) := by
  constructor
  · intro cs v d hp h1 h2 h3
    have hne : cs ≠ [] := by
      intro h
      subst h
      simp [jsonParse, skipWs, parseValue] at hp
    have hemp : cs.isEmpty = false := by
      cases cs with
      | nil => exact absurd rfl hne
      | cons a b => rfl
    have hTok : skjToken cs = cs := by
      simp [skjToken, h1, h2]
    have hTrim : skjTrimmed cs = cs := by
      simp [skjTrimmed, hTok, h3]
    simp [safeJsonParse, hemp, hTok, hTrim, h3, hp]
  · intro mid v hp hfence hesc
    have hFenceIdx : fenceIdx ('\x7b' :: (mid ++ ['\x7d'])) = none :=
      strIdxOfSub_eq_none_of_not_contains hfence
    have hFenced : mcpFenced ('\x7b' :: (mid ++ ['\x7d'])) = '\x7b' :: (mid ++ ['\x7d']) := by
      unfold mcpFenced fenceMatch
      rw [hFenceIdx]
    have hwOpen : isWsChar '\x7b' = false := by decide
    have hwClose : isWsChar '\x7d' = false := by decide
    have hRev : ('\x7b' :: (mid ++ ['\x7d'])).reverse = '\x7d' :: (mid.reverse ++ ['\x7b']) := by
      simp
    have hTrim : trimWs ('\x7b' :: (mid ++ ['\x7d'])) = '\x7b' :: (mid ++ ['\x7d']) := by
      unfold trimWs stripTrailing stripLeading
      rw [hRev, List.dropWhile_cons, hwClose]
      simp only [Bool.false_eq_true, if_false]
      rw [← hRev, List.reverse_reverse]
      rw [List.dropWhile_cons, hwOpen]
      simp
    have hP1 : mcpP1 ('\x7b' :: (mid ++ ['\x7d'])) = '\x7b' :: (mid ++ ['\x7d']) := by
      unfold mcpP1
      rw [hFenced, hTrim]
      unfold stripLeading
      rw [List.dropWhile_cons]
      norm_num [isWsChar]
      intro h
      exact absurd h (by decide)
    have hFirst : strIdxOfSub ['\x7b'] ('\x7b' :: (mid ++ ['\x7d'])) = some 0 := by
      simp [strIdxOfSub, listStarts]
    have hLast : lastIdxOfSub ['\x7d'] ('\x7b' :: (mid ++ ['\x7d'])) = some (mid.length + 1) := by
      have h := lastIdxOfSub_append_brace ('\x7b' :: mid)
      simpa using h
    have hTake :
        List.take (mid.length + 1 + 1 - 0) (List.drop 0 ('\x7b' :: (mid ++ ['\x7d']))) =
          '\x7b' :: (mid ++ ['\x7d']) := by
      rw [List.drop_zero]
      apply List.take_of_length_le
      simp
    have hBrace : mcpBraceCand ('\x7b' :: (mid ++ ['\x7d'])) = some ('\x7b' :: (mid ++ ['\x7d'])) := by
      unfold mcpBraceCand
      simp only [hP1, hFirst, hLast]
      rw [if_pos (by omega)]
      rw [hTake, replEscQ_eq_self _ hesc]
    have hemp : ('\x7b' :: (mid ++ ['\x7d'])).isEmpty = false := rfl
    simp [parseMCPToolParams, hemp, hBrace, hp]

/-- Witness for `c3_repair_passthrough` at the concrete valid object
`\x7b"x":1\x7d`. -/
theorem c3_repair_passthrough_witness :
    jsonParse ("\x7b\"x\":1\x7d").toList = some (Json.obj [("x", Json.num "1")]) ∧
    safeJsonParse ("\x7b\"x\":1\x7d").toList Json.null = Json.obj [("x", Json.num "1")] ∧
    parseMCPToolParams ("\x7b\"x\":1\x7d").toList = Json.obj [("x", Json.num "1")] := by
  refine ⟨rfl, ?_, ?_⟩
  · exact c3_repair_passthrough.1 ("\x7b\"x\":1\x7d").toList
      (Json.obj [("x", Json.num "1")]) Json.null rfl rfl rfl rfl
  · exact c3_repair_passthrough.2 ("\"x\":1").toList
      (Json.obj [("x", Json.num "1")]) rfl rfl rfl

/- ### Claim C4: behaviour when every repair heuristic fails -/

/-- When every candidate string of the `safeJsonParse` cascade fails to
parse, the function returns the caller-supplied default value. -/
theorem safeJsonParse_all_fail (cs : List Char) (d : Json)
    (h1 : jsonParse (skjUnescaped cs) = none)
    (h2 : jsonParse (skjSpecial cs) = none)
    (h3 : jsonParse (skjTrimmed cs) = none)
    (h4 : jsonParse (skjFallback cs) = none) :
    safeJsonParse cs d = d := by
  by_cases hemp : cs.isEmpty
  · simp [safeJsonParse, hemp]
  · simp [safeJsonParse, hemp, h1, h2, h3, h4]

/-- Claim C4 fails as stated: on the unparseable input `@@@`, every
heuristic and the raw parse fail, yet the repair returns a fabricated empty
object (the default), not a failure value carrying the original text. -/
theorem c4_counterexample_fabricated_empty_object :
    jsonParseStr "@@@" = none ∧
    safeJsonParse ("@@@").toList (Json.obj []) = Json.obj [] ∧
    parseMCPToolParams ("@@@").toList = Json.obj [] := by
  exact ⟨rfl, rfl, rfl⟩

/-- Claim C4, amended: when every repair heuristic and the final raw parse
fail, `safeJsonParse` returns the caller-supplied default value (an empty
object in the tool-call paths), never a failure carrying the original
text. -/
theorem c4_repair_failure_returns_default :
    ∀ (cs : List Char) (d : Json),
      jsonParse (skjUnescaped cs) = none →
      jsonParse (skjSpecial cs) = none →
      jsonParse (skjTrimmed cs) = none →
      jsonParse (skjFallback cs) = none →
      safeJsonParse cs d = d :=
  fun cs d h1 h2 h3 h4 => safeJsonParse_all_fail cs d h1 h2 h3 h4

/-- Witness for `c4_repair_failure_returns_default` on `@@@`, with a default
value that shows the result is the caller's default, not derived from the
input. -/
theorem c4_repair_failure_returns_default_witness :
    jsonParse (skjUnescaped ("@@@").toList) = none ∧
    jsonParse (skjSpecial ("@@@").toList) = none ∧
    jsonParse (skjTrimmed ("@@@").toList) = none ∧
    jsonParse (skjFallback ("@@@").toList) = none ∧
    safeJsonParse ("@@@").toList (Json.str "caller default") = Json.str "caller default" := by
  refine ⟨rfl, rfl, rfl, rfl, ?_⟩
  exact c4_repair_failure_returns_default ("@@@").toList (Json.str "caller default")
    rfl rfl rfl rfl

/- ### Claim C10: argument parsing never throws; parse-failure branch dead -/

/-- When every candidate of the `parseMCPToolParams` cascade (including the
`safeJsonParse` fallback on the stripped string) fails to parse, the
function returns the empty object. -/
theorem parseMCPToolParams_all_fail (cs : List Char)
    (hb : ∀ cand, mcpBraceCand cs = some cand → jsonParse cand = none)
    (h2 : jsonParse (mcpQuoteSpaceCand cs) = none)
    (h3 : jsonParse (mcpMultiCand cs) = none)
    (h4 : jsonParse (mcpSingleEndCand cs) = none)
    (h5 : jsonParse (mcpSingleGenCand cs) = none)
    (h6 : jsonParse (mcpQuoteWrapCand cs) = none)
    (h7 : jsonParse (skjUnescaped (mcpP1 cs)) = none)
    (h8 : jsonParse (skjSpecial (mcpP1 cs)) = none)
    (h9 : jsonParse (skjTrimmed (mcpP1 cs)) = none)
    (h10 : jsonParse (skjFallback (mcpP1 cs)) = none) :
    parseMCPToolParams cs = Json.obj [] := by
  have hfall : safeJsonParse (mcpP1 cs) (Json.obj []) = Json.obj [] :=
    safeJsonParse_all_fail (mcpP1 cs) (Json.obj []) h7 h8 h9 h10
  by_cases hemp : cs.isEmpty
  · simp [parseMCPToolParams, hemp]
  · have hbr : (match mcpBraceCand cs with
        | some cand => jsonParse cand
        | none => none) = (none : Option Json) := by
      cases hy : mcpBraceCand cs with
      | none => rfl
      | some cand => exact hb cand hy
    simp [parseMCPToolParams, hemp, hbr, h2, h3, h4, h5, h6, hfall]

/-- The outcome produced by `handleToolCall` once the tool is resolved: the
executor is invoked with the repaired parameters and its failure is folded
into an error outcome by the surrounding `catch`. -/
def execOutcome (tool : MCPTool) (executor : Executor) (args : Json) : ToolOutcome :=
  let res := executor tool.serverId tool.id args
  if res.success then { success := true, toolName := tool.name, result := res.result }
  else { success := false, error := toolExecutionFailedMsg res.message }

/-- Claim C10: argument parsing always yields a value — the cascade returns
the empty object when every heuristic fails — so for every resolved tool the
invocation reaches the executor with the repaired (possibly empty)
parameters, and the parameter-parse-failure branch of `handleToolCall` is
unreachable: the outcome is always the executor-derived one and never
carries the `toolParameterParseFailed` message. -/
theorem c10_argument_parsing_total :
    (∀ (cs : List Char),
      (∀ cand, mcpBraceCand cs = some cand → jsonParse cand = none) →
      jsonParse (mcpQuoteSpaceCand cs) = none →
      jsonParse (mcpMultiCand cs) = none →
      jsonParse (mcpSingleEndCand cs) = none →
      jsonParse (mcpSingleGenCand cs) = none →
      jsonParse (mcpQuoteWrapCand cs) = none →
      jsonParse (skjUnescaped (mcpP1 cs)) = none →
      jsonParse (skjSpecial (mcpP1 cs)) = none →
      jsonParse (skjTrimmed (mcpP1 cs)) = none →
      jsonParse (skjFallback (mcpP1 cs)) = none →
      parseMCPToolParams cs = Json.obj []) ∧
    (∀ (tc : ToolCall) (mcpTools : List MCPTool) (executor : Executor) (tool : MCPTool),
      mcpTools.find? (fun t => t.id = tc.function.name) = some tool →
      handleToolCall tc mcpTools executor =
        execOutcome tool executor (parseMCPToolParams (toolArgsStr tc).toList) ∧
      (handleToolCall tc mcpTools executor).message ≠ toolParameterParseFailedMsg) := by
  constructor
  · intro cs hb h2 h3 h4 h5 h6 h7 h8 h9 h10
    exact parseMCPToolParams_all_fail cs hb h2 h3 h4 h5 h6 h7 h8 h9 h10
  · intro tc mcpTools executor tool hfind
    have hcall : handleToolCall tc mcpTools executor =
        execOutcome tool executor (parseMCPToolParams (toolArgsStr tc).toList) := by
      unfold handleToolCall handleToolCallE parseMCPToolParamsE execOutcome
      rw [hfind]
      cases hs : (executor tool.serverId tool.id
          (parseMCPToolParams (toolArgsStr tc).data)).success <;> simp [hs]
    refine ⟨hcall, ?_⟩
    rw [hcall]
    unfold execOutcome
    cases hs : (executor tool.serverId tool.id
        (parseMCPToolParams (toolArgsStr tc).data)).success <;>
      simp [hs, toolParameterParseFailedMsg] <;> decide

/-- Witness for `c10_argument_parsing_total`: the irreparable argument text
`@@@` parses to the empty object, and a resolved tool with that argument
text is invoked with the empty object rather than producing the
parameter-parse-failure outcome. -/
theorem c10_argument_parsing_total_witness :
    parseMCPToolParams ("@@@").toList = Json.obj [] ∧
    (handleToolCall
        { index := 0, id := "c1", type := "function",
          function := { name := "t1", arguments := "@@@" } }
        [{ id := "t1", name := "Tool One", serverId := "s1" }]
        (fun _ _ _ => { success := true, result := Json.num "4" }) =
      execOutcome { id := "t1", name := "Tool One", serverId := "s1" }
        (fun _ _ _ => { success := true, result := Json.num "4" })
        (parseMCPToolParams (toolArgsStr
          { index := 0, id := "c1", type := "function",
            function := { name := "t1", arguments := "@@@" } }).toList)) := by
  constructor
  · exact c10_argument_parsing_total.1 ("@@@").toList
      (fun cand h => by cases h) rfl rfl rfl rfl rfl rfl rfl rfl rfl
  · exact (c10_argument_parsing_total.2
      { index := 0, id := "c1", type := "function",
        function := { name := "t1", arguments := "@@@" } }
      [{ id := "t1", name := "Tool One", serverId := "s1" }]
      (fun _ _ _ => { success := true, result := Json.num "4" })
      { id := "t1", name := "Tool One", serverId := "s1" } rfl).1

/- ### Claim C5: tool-call delta merging -/

/-- The `id`/`type` updates do not touch the `function` field. -/
theorem applyDeltaIdType_function (tc : ToolCall) (d : ToolCallDelta) :
    (applyDeltaIdType tc d).function = tc.function := by
  unfold applyDeltaIdType
  by_cases h1 : optTruthy d.id <;> by_cases h2 : optTruthy d.type <;> simp [h1, h2]

/-- A truthy delta id overwrites the accumulated id. -/
theorem applyDeltaIdType_id (tc : ToolCall) (d : ToolCallDelta) (s : String)
    (hid : d.id = some s) (hs : s ≠ "") : (applyDeltaIdType tc d).id = s := by
  unfold applyDeltaIdType
  simp only [hid]
  have ht : optTruthy (some s) = true := by simp [optTruthy, hs]
  simp only [ht, if_true, Option.getD_some]
  split <;> rfl

/-- The `function` updates do not touch the `id` field. -/
theorem applyDeltaFields_id (tc : ToolCall) (d : ToolCallDelta) :
    (applyDeltaFields tc d).id = (applyDeltaIdType tc d).id := by
  unfold applyDeltaFields
  rcases d.function with _ | f
  · rfl
  · by_cases hn : optTruthy f.name <;> by_cases ha : optTruthy f.arguments <;>
      simp [hn, ha]

/-- Argument fragments are appended to the accumulated argument text, and a
delta without an argument fragment leaves it unchanged. -/
theorem applyDeltaFields_arguments (tc : ToolCall) (d : ToolCallDelta) (f : DeltaFn)
    (hf : d.function = some f) :
    (applyDeltaFields tc d).function.arguments =
      tc.function.arguments ++ f.arguments.getD "" := by
  unfold applyDeltaFields
  rw [hf]
  have hfun := applyDeltaIdType_function tc d
  rcases hna : f.name with _ | ns <;> rcases hfa : f.arguments with _ | s
  · simp [optTruthy, hna, hfa, hfun]
  · by_cases hs : s = "" <;> simp [optTruthy, hna, hfa, hfun, hs]
  · by_cases hns : ns = "" <;> simp [optTruthy, hna, hfa, hfun, hns]
  · by_cases hns : ns = "" <;> by_cases hs : s = "" <;>
      simp [optTruthy, hna, hfa, hfun, hns, hs]

/-- No existing entry matches the delta's index exactly when
`updateFirstToolCall` returns `none`. -/
theorem updateFirstToolCall_none {d : ToolCallDelta} :
    ∀ {tcs : List ToolCall}, (∀ tc ∈ tcs, tc.index ≠ d.index) →
      updateFirstToolCall d tcs = none := by
  intro tcs
  induction tcs with
  | nil => intro _; rfl
  | cons tc rest ih =>
    intro h
    unfold updateFirstToolCall
    rw [if_neg (h tc (by simp))]
    rw [ih (fun x hx => h x (by simp [hx]))]
    rfl

/-- Claim C5: the delta sequence `index 0 / name "foo"`, `index 0 /
arguments "\x7b\"x\":"`, `index 0 / arguments "1\x7d"` assembles to exactly
one tool call named `foo` with argument text `\x7b"x":1\x7d`; in general a
delta for an unseen index appends a fresh entry, a delta for a seen index
merges into the first entry with that index, argument fragments are
concatenated in arrival order with no validity check, and a late id is
backfilled without touching the accumulated argument text. -/
theorem c5_assembler_merges_by_index :
    (assembleToolCalls
        [{ index := 0, function := some { name := some "foo" } },
         { index := 0, function := some { arguments := some "\x7b\"x\":" } },
         { index := 0, function := some { arguments := some "1\x7d" } }] =
      [{ index := 0, id := "", type := "",
         function := { name := "foo", arguments := "\x7b\"x\":1\x7d" } }]) ∧
    (∀ (tcs : List ToolCall) (d : ToolCallDelta),
      (∀ tc ∈ tcs, tc.index ≠ d.index) →
      applyToolCallDelta tcs d = tcs ++ [applyDeltaFields (blankToolCall d) d]) ∧
    (∀ (pre post : List ToolCall) (tc : ToolCall) (d : ToolCallDelta),
      tc.index = d.index → (∀ x ∈ pre, x.index ≠ d.index) →
      applyToolCallDelta (pre ++ tc :: post) d = pre ++ applyDeltaFields tc d :: post) ∧
    (∀ (tc : ToolCall) (d : ToolCallDelta) (f : DeltaFn), d.function = some f →
      (applyDeltaFields tc d).function.arguments =
        tc.function.arguments ++ f.arguments.getD "") ∧
    (∀ (tc : ToolCall) (d : ToolCallDelta) (s : String), d.id = some s → s ≠ "" →
      (applyDeltaFields tc d).id = s) := by
  refine ⟨by decide, ?_, ?_, ?_, ?_⟩
  · intro tcs d h
    unfold applyToolCallDelta
    rw [updateFirstToolCall_none h]
  · intro pre post tc d hidx hpre
    unfold applyToolCallDelta
    have hup : ∀ pre2, (∀ x ∈ pre2, x.index ≠ d.index) →
        updateFirstToolCall d (pre2 ++ tc :: post) =
          some (pre2 ++ applyDeltaFields tc d :: post) := by
      intro pre2
      induction pre2 with
      | nil =>
        intro _
        show updateFirstToolCall d (tc :: post) = some (applyDeltaFields tc d :: post)
        unfold updateFirstToolCall
        rw [if_pos hidx]
      | cons x rest ih =>
        intro h2
        show updateFirstToolCall d (x :: (rest ++ tc :: post)) = _
        unfold updateFirstToolCall
        rw [if_neg (h2 x (by simp))]
        rw [ih (fun y hy => h2 y (by simp [hy]))]
        rfl
    rw [hup pre hpre]
  · intro tc d f hf
    exact applyDeltaFields_arguments tc d f hf
  · intro tc d s hid hs
    rw [applyDeltaFields_id]
    exact applyDeltaIdType_id tc d s hid hs

/-- Witness for `c5_assembler_merges_by_index`: the general conjuncts applied
at concrete deltas. -/
theorem c5_assembler_merges_by_index_witness :
    (applyToolCallDelta []
        { index := 3, id := some "late", function := some { arguments := some "ab" } } =
      [{ index := 3, id := "late", type := "",
         function := { name := "", arguments := "ab" } }]) ∧
    (applyToolCallDelta
        [{ index := 3, id := "", type := "", function := { name := "n", arguments := "ab" } }]
        { index := 3, id := some "late", function := some { arguments := some "cd" } } =
      [{ index := 3, id := "late", type := "",
         function := { name := "n", arguments := "abcd" } }]) := by
  constructor
  · have h := c5_assembler_merges_by_index.2.1 []
      { index := 3, id := some "late", function := some { arguments := some "ab" } }
      (by intro tc htc; cases htc)
    rw [h]
    decide
  · have h := c5_assembler_merges_by_index.2.2.1 [] []
      { index := 3, id := "", type := "", function := { name := "n", arguments := "ab" } }
      { index := 3, id := some "late", function := some { arguments := some "cd" } }
      rfl (by intro x hx; cases hx)
    rw [List.nil_append] at h
    rw [h]
    decide

/- ### Claim C1: forced termination at the recursion cap -/

/-- Driver measure lemma: starting `k` levels below the cap, a completion
that always carries tool calls makes the driver perform exactly `k + 1`
model invocations and finish with the truncation suffix on the visible
content. -/
theorem driver_cap_aux :
    ∀ (k : Nat) (adapter : Adapter) (mcpTools : List MCPTool) (executor : Executor)
      (msgs : List LlmMsg) (depth : Nat),
      depth + k = maxRecursionDepth →
      (∀ ms, (adapter ms).toolCalls ≠ []) →
      modelInvocations adapter mcpTools executor msgs depth = k + 1 ∧
      ∃ s, (sendMessageToAI adapter mcpTools executor msgs depth).content =
        s ++ truncationSuffix := by
  intro k
  induction k with
  | zero =>
    intro adapter mcpTools executor msgs depth hdep htc
    have hlen : 0 < (adapter msgs).toolCalls.length :=
      List.length_pos.mpr (htc msgs)
    have hcap : maxRecursionDepth ≤ depth := by omega
    constructor
    · rw [modelInvocations]
      simp [hlen, hcap]
    · rw [sendMessageToAI]
      simp only [hlen, if_pos, hcap]
      exact ⟨(adapter msgs).content, by simp [hlen, hcap]⟩
  | succ k ih =>
    intro adapter mcpTools executor msgs depth hdep htc
    have hlen : 0 < (adapter msgs).toolCalls.length :=
      List.length_pos.mpr (htc msgs)
    have hlt : ¬maxRecursionDepth ≤ depth := by
      simp only [maxRecursionDepth] at *
      omega
    have hnext := ih adapter mcpTools executor
      (processToolCalls msgs (adapter msgs) mcpTools executor).1 (depth + 1)
      (by omega) htc
    constructor
    · rw [modelInvocations]
      simp only [hlen, if_pos, hlt, if_false]
      rw [hnext.1]
      omega
    · rw [sendMessageToAI]
      obtain ⟨s, hcontent⟩ := hnext.2
      refine ⟨s, ?_⟩
      simp [hlen, hlt, hcontent]

/-- Claim C1: when the adapter's completion reports at least one tool call
at every level, the driver performs exactly 50 model invocations from the
initial depth 1 and then stops, handing the completion callback a visible
content that ends with the truncation marker suffix. -/
theorem c1_recursion_capped_at_50 :
    ∀ (adapter : Adapter) (mcpTools : List MCPTool) (executor : Executor)
      (msgs : List LlmMsg),
      (∀ ms, (adapter ms).toolCalls ≠ []) →
      modelInvocations adapter mcpTools executor msgs 1 = 50 ∧
      ∃ s, (sendMessageToAI adapter mcpTools executor msgs 1).content =
        s ++ truncationSuffix := by
  intro adapter mcpTools executor msgs htc
  exact driver_cap_aux 49 adapter mcpTools executor msgs 1 rfl htc

/-- An adapter that always reports a single pending tool call (for the
claim-C1 witness). -/
def alwaysToolAdapter : Adapter := fun _ =>
  { content := "c",
    toolCalls := [{ index := 0, id := "id0", type := "function",
                    function := { name := "missing", arguments := "\x7b\x7d" } }] }

/-- A trivially succeeding executor (for witnesses). -/
def okExecutor : Executor := fun _ _ _ => { success := true }

/-- Witness for `c1_recursion_capped_at_50` with a synthetic adapter that
always reports one tool call. -/
theorem c1_recursion_capped_at_50_witness :
    (∀ ms, (alwaysToolAdapter ms).toolCalls ≠ []) ∧
    modelInvocations alwaysToolAdapter [] okExecutor [] 1 = 50 ∧
    ∃ s, (sendMessageToAI alwaysToolAdapter [] okExecutor [] 1).content =
      s ++ truncationSuffix := by
  have htc : ∀ ms, (alwaysToolAdapter ms).toolCalls ≠ [] := by
    intro ms
    simp [alwaysToolAdapter]
  have h := c1_recursion_capped_at_50 alwaysToolAdapter [] okExecutor [] htc
  exact ⟨htc, h.1, h.2⟩

/- ### Claim C9: unknown tool id is a recoverable error -/

/-- Claim C9: a tool call whose name resolves to no catalog entry yields an
error outcome (never a thrown exception), the driver still appends a
tool-role message for it, and — below the recursion cap — the driver
re-invokes the model on the extended conversation, merging the recursive
result. -/
theorem c9_unknown_tool_continues :
    ∀ (tc : ToolCall) (mcpTools : List MCPTool) (executor : Executor)
      (adapter : Adapter) (msgs : List LlmMsg) (depth : Nat),
      tc.type = "function" →
      (∀ t ∈ mcpTools, t.id ≠ tc.function.name) →
      (adapter msgs).toolCalls = [tc] →
      depth < maxRecursionDepth →
      handleToolCall tc mcpTools executor =
        { success := false, error := toolNotFoundMsg tc.function.name } ∧
      (processToolCalls msgs (adapter msgs) mcpTools executor).1.getLast? =
        some { role := "tool", tool_call_id := tc.id,
               content := stringifyOutcome
                 { success := false, error := toolNotFoundMsg tc.function.name } } ∧
      sendMessageToAI adapter mcpTools executor msgs depth =
        { sendMessageToAI adapter mcpTools executor
            (processToolCalls msgs (adapter msgs) mcpTools executor).1 (depth + 1) with
          toolCallResults :=
            (adapter msgs).toolCallResults ++
              (processToolCalls msgs (adapter msgs) mcpTools executor).2 ++
              (sendMessageToAI adapter mcpTools executor
                (processToolCalls msgs (adapter msgs) mcpTools executor).1
                (depth + 1)).toolCallResults } := by
  intro tc mcpTools executor adapter msgs depth htype hunknown hcalls hdepth
  have hfind : mcpTools.find? (fun t => t.id = tc.function.name) = none := by
    rw [List.find?_eq_none]
    intro t ht
    simp [hunknown t ht]
  have hcall : handleToolCall tc mcpTools executor =
      { success := false, error := toolNotFoundMsg tc.function.name } := by
    unfold handleToolCall handleToolCallE
    rw [hfind]
  refine ⟨hcall, ?_, ?_⟩
  · unfold processToolCalls
    rw [hcalls]
    simp only [List.foldl_cons, List.foldl_nil, htype, if_pos, hcall]
    simp
  · rw [sendMessageToAI]
    have hlen : 0 < (adapter msgs).toolCalls.length := by
      rw [hcalls]
      simp
    have hnocap : ¬maxRecursionDepth ≤ depth := by omega
    simp only [hlen, if_pos, hnocap, if_false]

/-- Witness for `c9_unknown_tool_continues`: a concrete unknown tool call
against an empty catalog at depth 1. -/
theorem c9_unknown_tool_continues_witness :
    handleToolCall
        { index := 0, id := "id0", type := "function",
          function := { name := "missing", arguments := "\x7b\x7d" } }
        [] okExecutor =
      { success := false, error := toolNotFoundMsg "missing" } ∧
    (processToolCalls [] (alwaysToolAdapter []) [] okExecutor).1.getLast? =
      some { role := "tool", tool_call_id := "id0",
             content := stringifyOutcome
               { success := false, error := toolNotFoundMsg "missing" } } := by
  have h := c9_unknown_tool_continues
    { index := 0, id := "id0", type := "function",
      function := { name := "missing", arguments := "\x7b\x7d" } }
    [] okExecutor alwaysToolAdapter [] 1 rfl (by intro t ht; cases ht) rfl (by decide)
  exact ⟨h.1, h.2.1⟩

/- ### Claim C2: what stop-generation actually writes -/

/-- A chat state mid-stream: the assistant message with id 1 has accumulated
the streamed text `Hello, wor` and is still receiving. -/
def c2StreamingState : ChatState :=
  { messages :=
      [{ id := 0, role := "user", status := "success",
         content := [{ type := "content", content := "hi", status := "success" }] },
       { id := 1, role := "assistant", status := "receiving",
         content := [{ type := "content", content := "Hello, wor", status := "receiving" }] }],
    currentAIMessageId := some 1,
    isSending := true }

/-- Claim C2 fails as stated: firing stop-generation mid-stream records the
in-progress assistant turn with status `"error"` and replaces its entire
content with the termination marker, discarding the accumulated partial
text. -/
theorem c2_counterexample_status_error_content_lost :
    (handleStopGeneration c2StreamingState).messages =
      [{ id := 0, role := "user", status := "success",
         content := [{ type := "content", content := "hi", status := "success" }] },
       { id := 1, role := "assistant", status := "error",
         content := terminationContent }] ∧
    (∀ m ∈ (handleStopGeneration c2StreamingState).messages,
      m.id = 1 → m.status = "error") ∧
    (∀ m ∈ (handleStopGeneration c2StreamingState).messages,
      ∀ item ∈ m.content, item.content ≠ "Hello, wor") := by
  refine ⟨by decide, by decide, by decide⟩

/-- Claim C2, amended: firing the cancellation token finalizes the
in-progress assistant turn with the user-terminated marker as its entire
content and records it with status `"error"` (the same status value used for
failures; accumulated partial content is discarded), clears the tracked id
and sending flag, and the service error callback ignores the resulting
`AbortError` so no failure text overwrites the marker. -/
theorem c2_cancellation_writes_error_status :
    ∀ (st : ChatState) (mid : Nat),
      st.currentAIMessageId = some mid →
      ((handleStopGeneration st).currentAIMessageId = none ∧
       (handleStopGeneration st).isSending = false ∧
       (∀ m ∈ (handleStopGeneration st).messages,
         m.id = mid → m.status = "error" ∧ m.content = terminationContent)) ∧
      (∀ (errMessage : String) (aiMessageId : Nat) (st2 : ChatState),
        onAIServiceError "AbortError" errMessage aiMessageId st2 = st2) := by
  intro st mid hmid
  refine ⟨⟨?_, ?_, ?_⟩, ?_⟩
  · unfold handleStopGeneration
    rw [hmid]
  · unfold handleStopGeneration
    rw [hmid]
  · unfold handleStopGeneration
    rw [hmid]
    intro m hm hid
    simp only [List.mem_map] at hm
    obtain ⟨x, hx, hfx⟩ := hm
    by_cases hxid : x.id = mid
    · rw [if_pos hxid] at hfx
      rw [← hfx]
      exact ⟨rfl, rfl⟩
    · rw [if_neg hxid] at hfx
      rw [← hfx] at hid
      exact absurd hid hxid
  · intro errMessage aiMessageId st2
    unfold onAIServiceError
    simp

/-- Witness for `c2_cancellation_writes_error_status` at the concrete
mid-stream state. -/
theorem c2_cancellation_writes_error_status_witness :
    c2StreamingState.currentAIMessageId = some 1 ∧
    (handleStopGeneration c2StreamingState).currentAIMessageId = none ∧
    (∀ m ∈ (handleStopGeneration c2StreamingState).messages,
      m.id = 1 → m.status = "error" ∧ m.content = terminationContent) := by
  have h := c2_cancellation_writes_error_status c2StreamingState 1 rfl
  exact ⟨rfl, h.1.1, h.1.2.2⟩

/- ### Claims C6–C8: concrete conversations -/

/-- Stored user message `u1` at time 0, etc.: the five-message conversation
`[U1, A1, U2, A2(error), U3]` of claim C6. -/
def c6Messages : List StoredMsg :=
  [{ role := "user", status := "success", createdAt := 0,
     content := [{ type := "content", content := "u1", status := "success" }] },
   { role := "assistant", status := "success", createdAt := 1,
     content := [{ type := "content", content := "a1", status := "success" }] },
   { role := "user", status := "success", createdAt := 2,
     content := [{ type := "content", content := "u2", status := "success" }] },
   { role := "assistant", status := "error", createdAt := 3,
     content := [{ type := "content", content := "a2", status := "error" }] },
   { role := "user", status := "success", createdAt := 4,
     content := [{ type := "content", content := "u3", status := "success" }] }]

/-- The same conversation with no error turns (claims C7 and C8). -/
def c7Messages : List StoredMsg :=
  [{ role := "user", status := "success", createdAt := 0,
     content := [{ type := "content", content := "u1", status := "success" }] },
   { role := "assistant", status := "success", createdAt := 1,
     content := [{ type := "content", content := "a1", status := "success" }] },
   { role := "user", status := "success", createdAt := 2,
     content := [{ type := "content", content := "u2", status := "success" }] },
   { role := "assistant", status := "success", createdAt := 3,
     content := [{ type := "content", content := "a2", status := "success" }] },
   { role := "user", status := "success", createdAt := 4,
     content := [{ type := "content", content := "u3", status := "success" }] }]

/-- Claim C6: truncation discards the error assistant turn together with its
preceding user turn — on `[U1, A1, U2, A2(error), U3]` with the unlimited
setting or any finite limit of at least 10, the result is exactly
`[U1, A1, U3]`, whose first and last elements are user turns. -/
theorem c6_error_pair_dropped :
    (parseNeedSendMessage true 10 c6Messages =
      [{ role := "user", content := "u1" }, { role := "assistant", content := "a1" },
       { role := "user", content := "u3" }]) ∧
    (∀ n : Nat, 10 ≤ n →
      parseNeedSendMessage false n c6Messages =
        [{ role := "user", content := "u1" }, { role := "assistant", content := "a1" },
         { role := "user", content := "u3" }]) ∧
    (parseNeedSendMessage true 10 c6Messages).head?.map SendMsg.role = some "user" ∧
    (parseNeedSendMessage true 10 c6Messages).getLast?.map SendMsg.role = some "user" := by
  refine ⟨by decide, ?_, by decide, by decide⟩
  intro n hn
  have hstep : parseNeedSendMessage false n c6Messages =
      limitOnePass n (afterLimit false n
        [{ role := "user", content := "u1" }, { role := "assistant", content := "a1" },
         { role := "user", content := "u3" }]) := rfl
  rw [hstep]
  unfold afterLimit
  have h3 : ¬n < ([{ role := "user", content := "u1" },
      { role := "assistant", content := "a1" },
      { role := "user", content := "u3" }] : List SendMsg).length := by
    simp
    omega
  have h1 : ¬n = 1 := by omega
  simp only [h3, decide_False, Bool.and_false, Bool.false_eq_true, if_false]
  unfold limitOnePass
  rw [if_neg h1]
  decide

/-- Witness for `c6_error_pair_dropped` at the finite limit 10. -/
theorem c6_error_pair_dropped_witness :
    parseNeedSendMessage false 10 c6Messages =
      [{ role := "user", content := "u1" }, { role := "assistant", content := "a1" },
       { role := "user", content := "u3" }] :=
  c6_error_pair_dropped.2.1 10 (by omega)

/- ### Claim C7: finite-limit truncation bound -/

/-- Claim C7 fails as stated: with limit 2 on `[U1, A1, U2, A2, U3]` the
result is `[U3, A2, U3]` — three turns, exceeding the limit, with the most
recent user turn duplicated by the final alternation pass; no additional
element is dropped. -/
theorem c7_counterexample_limit_exceeded :
    parseNeedSendMessage false 2 c7Messages =
      [{ role := "user", content := "u3" }, { role := "assistant", content := "a2" },
       { role := "user", content := "u3" }] ∧
    (parseNeedSendMessage false 2 c7Messages).length = 3 ∧ ¬(3 ≤ 2) := by
  exact ⟨by decide, by decide, by omega⟩

/-- The alternation filter never lengthens the list. -/
theorem altFilter_length_le : ∀ (l : List SendMsg) (expected : String),
    (altFilter l expected).length ≤ l.length := by
  intro l
  induction l with
  | nil => intro expected; simp [altFilter]
  | cons m rest ih =>
    intro expected
    unfold altFilter
    by_cases h : m.role = expected
    · rw [if_pos h]
      simpa using ih _
    · rw [if_neg h]
      exact le_trans (ih _) (by simp)

/-- The first element kept by the alternation filter has the expected
role. -/
theorem altFilter_head_role : ∀ (l : List SendMsg) (expected : String) (x : SendMsg),
    (altFilter l expected).head? = some x → x.role = expected := by
  intro l
  induction l with
  | nil => intro expected x h; cases h
  | cons m rest ih =>
    intro expected x h
    unfold altFilter at h
    by_cases hm : m.role = expected
    · rw [if_pos hm] at h
      injection h with h2
      rw [← h2]
      exact hm
    · rw [if_neg hm] at h
      exact ih expected x h

/-- Removing an index never lengthens a list. -/
theorem length_eraseIdx_le : ∀ (l : List SendMsg) (i : Nat),
    (l.eraseIdx i).length ≤ l.length := by
  intro l
  induction l with
  | nil => intro i; simp [List.eraseIdx]
  | cons x xs ih =>
    intro i
    cases i with
    | zero => simp [List.eraseIdx]
    | succ j =>
      simp only [List.eraseIdx, List.length_cons]
      exact Nat.succ_le_succ (ih j)

/-- Removing a present index shortens the list by exactly one. -/
theorem length_eraseIdx_of_get : ∀ (l : List SendMsg) (i : Nat) (m : SendMsg),
    l.get? i = some m → (l.eraseIdx i).length + 1 = l.length := by
  intro l
  induction l with
  | nil => intro i m h; cases h
  | cons x xs ih =>
    intro i m h
    cases i with
    | zero => simp [List.eraseIdx]
    | succ j =>
      simp only [List.get?] at h
      simp only [List.eraseIdx, List.length_cons]
      rw [← ih j m h]

/-- Rotating an element to the front preserves the length. -/
theorem moveIdxFront_length (l : List SendMsg) (i : Nat) :
    (moveIdxFront l i).length = l.length := by
  unfold moveIdxFront
  cases hg : l.get? i with
  | none => rfl
  | some m =>
    simp only [List.length_cons]
    exact length_eraseIdx_of_get l i m hg

/-- The window kept by the limit step never exceeds the limit. -/
theorem limitWindow_length_le (maxMessages : Nat) (l : List SendMsg) :
    (limitWindow maxMessages l).length ≤ maxMessages := by
  unfold limitWindow
  rw [List.length_drop]
  omega

/-- The whole limit step never exceeds the limit. -/
theorem limitStep_length_le (maxMessages : Nat) (l : List SendMsg) :
    (limitStep maxMessages l).length ≤ maxMessages := by
  have ht := limitWindow_length_le maxMessages l
  unfold limitStep
  cases hh : (limitWindow maxMessages l).head? with
  | none => exact ht
  | some m =>
    dsimp only
    by_cases hr : m.role = "user"
    · rw [if_pos hr]
      exact ht
    · rw [if_neg hr]
      cases hf : findIdxUser (limitWindow maxMessages l) with
      | none => exact ht
      | some i =>
        dsimp only
        by_cases hi : 0 < i
        · rw [if_pos hi]
          have hm : (moveIdxFront (limitWindow maxMessages l) i).length ≤ maxMessages := by
            rw [moveIdxFront_length]
            exact ht
          by_cases hl : maxMessages < (moveIdxFront (limitWindow maxMessages l) i).length
          · rw [if_pos hl]
            exact le_trans (length_eraseIdx_le _ _) hm
          · rw [if_neg hl]
            exact hm
        · rw [if_neg hi]
          exact ht

/-- With the unlimited flag off and a positive limit, the limit stage caps
the list length at the limit. -/
theorem afterLimit_length_le (maxMessages : Nat) (l : List SendMsg)
    (hN : 1 ≤ maxMessages) :
    (afterLimit false maxMessages l).length ≤ maxMessages := by
  unfold afterLimit
  by_cases hc : maxMessages < l.length
  · have hcond : (!false && decide (0 < maxMessages) && decide (maxMessages < l.length))
        = true := by
      simp [hc]
      omega
    rw [hcond]
    simpa using limitStep_length_le maxMessages l
  · have hcond : (!false && decide (0 < maxMessages) && decide (maxMessages < l.length))
        = false := by
      simp [hc]
    rw [hcond]
    simp
    omega

/-- The final pass adds at most one element beyond the filtered list. -/
theorem finalPass_length_le (l : List SendMsg) :
    (finalPass l).length ≤ l.length + 1 := by
  have hf := altFilter_length_le l "user"
  unfold finalPass
  cases hg : (altFilter l "user").getLast? with
  | none =>
    dsimp only
    omega
  | some m =>
    dsimp only
    by_cases hr : m.role = "user"
    · rw [if_pos hr]
      omega
    · rw [if_neg hr]
      cases hu : lastUserIdx l with
      | none =>
        dsimp only
        omega
      | some i =>
        dsimp only
        cases hget : l.get? i with
        | none =>
          dsimp only
          omega
        | some u =>
          dsimp only
          simp only [List.length_append, List.length_cons, List.length_nil]
          omega

/-- The final pass starts with a user turn whenever it is non-empty. -/
theorem finalPass_head_role (l : List SendMsg) (x : SendMsg)
    (h : (finalPass l).head? = some x) : x.role = "user" := by
  unfold finalPass at h
  cases hg : (altFilter l "user").getLast? with
  | none =>
    rw [hg] at h
    exact altFilter_head_role l "user" x h
  | some m =>
    rw [hg] at h
    dsimp only at h
    by_cases hr : m.role = "user"
    · rw [if_pos hr] at h
      exact altFilter_head_role l "user" x h
    · rw [if_neg hr] at h
      cases hu : lastUserIdx l with
      | none =>
        rw [hu] at h
        exact altFilter_head_role l "user" x h
      | some i =>
        rw [hu] at h
        dsimp only at h
        cases hget : l.get? i with
        | none =>
          rw [hget] at h
          exact altFilter_head_role l "user" x h
        | some u =>
          rw [hget] at h
          dsimp only at h
          cases hfil : altFilter l "user" with
          | nil => rw [hfil] at hg; cases hg
          | cons a t =>
            rw [hfil] at h
            simp only [List.cons_append, List.head?_cons] at h
            injection h with h2
            rw [← h2]
            have : (altFilter l "user").head? = some a := by rw [hfil]; rfl
            exact altFilter_head_role l "user" a this

/-- The first user turn found by `findIdxUser` really is a user turn. -/
theorem findIdxUser_get_role : ∀ (l : List SendMsg) (i : Nat),
    findIdxUser l = some i → ∀ m, l.get? i = some m → m.role = "user" := by
  intro l
  induction l with
  | nil => intro i h; cases h
  | cons a t ih =>
    intro i h m hget
    unfold findIdxUser at h
    by_cases ha : a.role = "user"
    · rw [if_pos ha] at h
      injection h with h2
      rw [← h2] at hget
      injection hget with h3
      rw [← h3]
      exact ha
    · rw [if_neg ha] at h
      cases hj : findIdxUser t with
      | none => rw [hj] at h; cases h
      | some j =>
        rw [hj] at h
        injection h with h2
        rw [← h2] at hget
        exact ih j hj m hget

/-- The limit-1 stage and final pass add at most one element. -/
theorem limitOnePass_length_le (maxMessages : Nat) (l : List SendMsg) :
    (limitOnePass maxMessages l).length ≤ l.length + 1 := by
  unfold limitOnePass
  by_cases h1 : maxMessages = 1
  · rw [if_pos h1]
    cases hf : findIdxUser l with
    | none => exact finalPass_length_le l
    | some i =>
      dsimp only
      cases hget : l.get? i with
      | none => exact finalPass_length_le l
      | some m =>
        dsimp only
        simp
  · rw [if_neg h1]
    exact finalPass_length_le l

/-- The limit-1 stage and final pass always start with a user turn. -/
theorem limitOnePass_head_role (maxMessages : Nat) (l : List SendMsg) (x : SendMsg)
    (h : (limitOnePass maxMessages l).head? = some x) : x.role = "user" := by
  unfold limitOnePass at h
  by_cases h1 : maxMessages = 1
  · rw [if_pos h1] at h
    cases hf : findIdxUser l with
    | none =>
      rw [hf] at h
      exact finalPass_head_role l x h
    | some i =>
      rw [hf] at h
      dsimp only at h
      cases hget : l.get? i with
      | none =>
        rw [hget] at h
        exact finalPass_head_role l x h
      | some m =>
        rw [hget] at h
        dsimp only at h
        injection h with h2
        rw [← h2]
        exact findIdxUser_get_role l i hf m hget
  · rw [if_neg h1] at h
    exact finalPass_head_role l x h

/-- Claim C7, amended: with a finite configured limit `N ≥ 1`, the truncated
sequence starts with a user turn but may contain `N + 1` turns — the final
alternation pass can append a duplicate of the most recent user turn, and
the source's extra-drop branch never fires because the rotation preserves
length. -/
theorem c7_finite_limit_bound :
    ∀ (msgs : List StoredMsg) (maxMessages : Nat), 1 ≤ maxMessages →
      (parseNeedSendMessage false maxMessages msgs).length ≤ maxMessages + 1 ∧
      ∀ x, (parseNeedSendMessage false maxMessages msgs).head? = some x →
        x.role = "user" := by
  intro msgs maxMessages hN
  unfold parseNeedSendMessage
  by_cases h1 : msgs.isEmpty
  · rw [if_pos h1]
    exact ⟨by simp, by intro x hx; cases hx⟩
  · rw [if_neg h1]
    by_cases h2 : (buildAlternating (validMessages (sortByCreatedAt msgs))).isEmpty
    · rw [if_pos h2]
      exact ⟨by simp, by intro x hx; cases hx⟩
    · rw [if_neg h2]
      constructor
      · have ha := afterLimit_length_le maxMessages
          (ensureLastUser (ensureFirstUser
            (buildAlternating (validMessages (sortByCreatedAt msgs))))) hN
        have hb := limitOnePass_length_le maxMessages
          (afterLimit false maxMessages
            (ensureLastUser (ensureFirstUser
              (buildAlternating (validMessages (sortByCreatedAt msgs))))))
        omega
      · intro x hx
        exact limitOnePass_head_role _ _ x hx

/-- Witness for `c7_finite_limit_bound` at limit 2 on the concrete
conversation (where the bound `N + 1` is attained). -/
theorem c7_finite_limit_bound_witness :
    (parseNeedSendMessage false 2 c7Messages).length ≤ 3 ∧
    ∀ x, (parseNeedSendMessage false 2 c7Messages).head? = some x → x.role = "user" := by
  have h := c7_finite_limit_bound c7Messages 2 (by omega)
  exact ⟨h.1, h.2⟩


/- ### Claim C8: limit 1 returns the single most recent user turn -/

/-- The valid-message form of a user turn of the conversation family. -/
def vU (cu : Nat → String) (i : Nat) : ValidMsg :=
  { role := "user", status := "success", content := cu i }

/-- The valid-message form of an assistant turn of the conversation
family. -/
def vA (ca : Nat → String) (i : Nat) : ValidMsg :=
  { role := "assistant", status := "success", content := ca i }

/-- The outgoing form of a user turn of the conversation family. -/
def sU (cu : Nat → String) (i : Nat) : SendMsg :=
  { role := "user", content := cu i }

/-- The outgoing form of an assistant turn of the conversation family. -/
def sA (ca : Nat → String) (i : Nat) : SendMsg :=
  { role := "assistant", content := ca i }

/-- The valid-message list extracted from `convFrom`. -/
def vFrom (cu ca : Nat → String) (i : Nat) : Nat → List ValidMsg
  | 0 => [vU cu i]
  | n + 1 => vU cu i :: vA ca i :: vFrom cu ca (i + 1) n

/-- The alternating send list built from `convFrom`. -/
def sFrom (cu ca : Nat → String) (i : Nat) : Nat → List SendMsg
  | 0 => [sU cu i]
  | n + 1 => sU cu i :: sA ca i :: sFrom cu ca (i + 1) n

/-- `convFrom` always begins with its first user message. -/
theorem convFrom_cons (cu ca : Nat → String) (i n : Nat) :
    ∃ rest, convFrom cu ca i n = mkUserMsg cu i :: rest := by
  cases n with
  | zero => exact ⟨[], rfl⟩
  | succ m => exact ⟨mkAsstMsg ca i :: convFrom cu ca (i + 1) m, rfl⟩

/-- `convFrom` is already sorted by creation time, so the stable sort leaves
it unchanged. -/
theorem sort_convFrom (cu ca : Nat → String) :
    ∀ (n i : Nat), sortByCreatedAt (convFrom cu ca i n) = convFrom cu ca i n := by
  intro n
  induction n with
  | zero =>
    intro i
    rfl
  | succ m ih =>
    intro i
    show insertByTime (mkUserMsg cu i)
        (insertByTime (mkAsstMsg ca i) (sortByCreatedAt (convFrom cu ca (i + 1) m))) = _
    rw [ih (i + 1)]
    obtain ⟨rest, hr⟩ := convFrom_cons cu ca (i + 1) m
    rw [hr]
    have hA : insertByTime (mkAsstMsg ca i) (mkUserMsg cu (i + 1) :: rest) =
        mkAsstMsg ca i :: mkUserMsg cu (i + 1) :: rest := by
      unfold insertByTime
      rw [if_pos (by unfold mkAsstMsg mkUserMsg; dsimp only; omega)]
    rw [hA]
    have hU : insertByTime (mkUserMsg cu i)
        (mkAsstMsg ca i :: mkUserMsg cu (i + 1) :: rest) =
        mkUserMsg cu i :: mkAsstMsg ca i :: mkUserMsg cu (i + 1) :: rest := by
      unfold insertByTime
      rw [if_pos (by unfold mkAsstMsg mkUserMsg; dsimp only; omega)]
    rw [hU, ← hr]
    rfl

/-- Extracting valid messages from `convFrom` keeps every turn, with its main
text. -/
theorem validMessages_convFrom (cu ca : Nat → String)
    (hcu : ∀ j, cu j ≠ "") (hca : ∀ j, ca j ≠ "") :
    ∀ (n i : Nat), validMessages (convFrom cu ca i n) = vFrom cu ca i n := by
  intro n
  induction n with
  | zero =>
    intro i
    show validMessages [mkUserMsg cu i] = _
    simp [validMessages, mkUserMsg, vFrom, vU, hcu i]
  | succ m ih =>
    intro i
    show validMessages (mkUserMsg cu i :: mkAsstMsg ca i :: convFrom cu ca (i + 1) m) = _
    unfold validMessages at ih ⊢
    simp only [List.filterMap_cons]
    rw [ih (i + 1)]
    simp [mkUserMsg, mkAsstMsg, hcu i, hca i, vFrom, vU, vA]

/-- The pairing loop maps the empty list to the empty list at any fuel. -/
theorem buildAlternatingRec_nil : ∀ fuel, buildAlternatingRec fuel [] = [] := by
  intro fuel
  cases fuel <;> rfl

/-- With enough fuel, the pairing loop turns `vFrom` into `sFrom`. -/
theorem buildAlternatingRec_vFrom (cu ca : Nat → String) :
    ∀ (n i fuel : Nat), 2 * n + 1 ≤ fuel →
      buildAlternatingRec fuel (vFrom cu ca i n) = sFrom cu ca i n := by
  intro n
  induction n with
  | zero =>
    intro i fuel hfuel
    cases fuel with
    | zero => omega
    | succ f =>
      show buildAlternatingRec (f + 1) [vU cu i] = [sU cu i]
      unfold buildAlternatingRec
      dsimp only
      rw [if_pos (show (vU cu i).role = "user" from rfl)]
      rw [show findNextAssistant ([] : List ValidMsg) = none from rfl]
      dsimp only
      rw [buildAlternatingRec_nil]
      rfl
  | succ m ih =>
    intro i fuel hfuel
    cases fuel with
    | zero => omega
    | succ f =>
      show buildAlternatingRec (f + 1) (vU cu i :: vA ca i :: vFrom cu ca (i + 1) m) =
        sU cu i :: sA ca i :: sFrom cu ca (i + 1) m
      unfold buildAlternatingRec
      dsimp only
      rw [if_pos (show (vU cu i).role = "user" from rfl)]
      rw [show findNextAssistant (vA ca i :: vFrom cu ca (i + 1) m) =
        some (vA ca i, vFrom cu ca (i + 1) m) from rfl]
      dsimp only
      have hne : ¬(vA ca i).status = "error" := by
        show ¬("success" : String) = "error"
        decide
      rw [if_neg hne]
      rw [ih (i + 1) f (by omega)]
      rfl

/-- Length of `vFrom`. -/
theorem vFrom_length (cu ca : Nat → String) :
    ∀ (n i : Nat), (vFrom cu ca i n).length = 2 * n + 1 := by
  intro n
  induction n with
  | zero => intro i; rfl
  | succ m ih =>
    intro i
    show (vU cu i :: vA ca i :: vFrom cu ca (i + 1) m).length = _
    simp only [List.length_cons, ih (i + 1)]
    omega

/-- The pairing loop at its natural fuel on `vFrom`. -/
theorem buildAlternating_vFrom (cu ca : Nat → String) (n i : Nat) :
    buildAlternating (vFrom cu ca i n) = sFrom cu ca i n := by
  unfold buildAlternating
  exact buildAlternatingRec_vFrom cu ca n i _ (by rw [vFrom_length])

/-- `sFrom` begins with its first user turn. -/
theorem sFrom_head (cu ca : Nat → String) (n i : Nat) :
    (sFrom cu ca i n).head? = some (sU cu i) := by
  cases n <;> rfl

/-- `sFrom` ends with its last user turn. -/
theorem sFrom_last (cu ca : Nat → String) :
    ∀ (n i : Nat), (sFrom cu ca i n).getLast? = some (sU cu (i + n)) := by
  intro n
  induction n with
  | zero => intro i; rfl
  | succ m ih =>
    intro i
    obtain ⟨c, t, hct⟩ : ∃ c t, sFrom cu ca (i + 1) m = c :: t := by
      cases hm : sFrom cu ca (i + 1) m with
      | nil =>
        have hh := sFrom_head cu ca m (i + 1)
        rw [hm] at hh
        cases hh
      | cons c t => exact ⟨c, t, rfl⟩
    show (sU cu i :: sA ca i :: sFrom cu ca (i + 1) m).getLast? = _
    rw [hct, List.getLast?_cons_cons, List.getLast?_cons_cons, ← hct, ih (i + 1)]
    have h2 : i + 1 + m = i + (m + 1) := by omega
    rw [h2]

/-- Length of `sFrom`. -/
theorem sFrom_length (cu ca : Nat → String) :
    ∀ (n i : Nat), (sFrom cu ca i n).length = 2 * n + 1 := by
  intro n
  induction n with
  | zero => intro i; rfl
  | succ m ih =>
    intro i
    show (sU cu i :: sA ca i :: sFrom cu ca (i + 1) m).length = _
    simp only [List.length_cons, ih (i + 1)]
    omega

/-- Dropping everything before the final user turn of `sFrom`. -/
theorem sFrom_drop (cu ca : Nat → String) :
    ∀ (n i : Nat), List.drop (2 * n) (sFrom cu ca i n) = [sU cu (i + n)] := by
  intro n
  induction n with
  | zero => intro i; rfl
  | succ m ih =>
    intro i
    show List.drop (2 * (m + 1)) (sU cu i :: sA ca i :: sFrom cu ca (i + 1) m) = _
    rw [show 2 * (m + 1) = 2 * m + 1 + 1 by omega]
    rw [List.drop_succ_cons, List.drop_succ_cons]
    rw [ih (i + 1)]
    have h2 : i + 1 + m = i + (m + 1) := by omega
    rw [h2]

/-- Claim C8: with the context limit configured to exactly 1, a well-formed
non-empty conversation — `n` user/assistant pairs with non-empty texts
followed by the latest user turn — truncates to exactly the single most
recent user turn. -/
theorem c8_limit_one_most_recent_user :
    ∀ (n : Nat) (cu ca : Nat → String),
      (∀ j, cu j ≠ "") → (∀ j, ca j ≠ "") →
      parseNeedSendMessage false 1 (conv cu ca n) =
        [{ role := "user", content := cu n }] := by
  intro n cu ca hcu hca
  have halt : buildAlternating (validMessages (sortByCreatedAt (conv cu ca n))) =
      sFrom cu ca 0 n := by
    unfold conv
    rw [sort_convFrom cu ca n 0, validMessages_convFrom cu ca hcu hca n 0]
    exact buildAlternating_vFrom cu ca n 0
  obtain ⟨rest0, hr0⟩ := convFrom_cons cu ca 0 n
  have hcond1 : ¬((conv cu ca n).isEmpty = true) := by
    unfold conv
    rw [hr0]
    simp
  obtain ⟨c0, t0, hs0⟩ : ∃ c t, sFrom cu ca 0 n = c :: t := by
    cases hs : sFrom cu ca 0 n with
    | nil =>
      have hh := sFrom_head cu ca n 0
      rw [hs] at hh
      cases hh
    | cons c t => exact ⟨c, t, rfl⟩
  have hcond2 :
      ¬((buildAlternating (validMessages (sortByCreatedAt (conv cu ca n)))).isEmpty
        = true) := by
    rw [halt, hs0]
    simp
  have hfirst : ensureFirstUser (sFrom cu ca 0 n) = sFrom cu ca 0 n := by
    unfold ensureFirstUser
    rw [sFrom_head]
    dsimp only
    rw [if_pos (show (sU cu 0).role = "user" from rfl)]
  have hlast : ensureLastUser (sFrom cu ca 0 n) = sFrom cu ca 0 n := by
    unfold ensureLastUser
    rw [sFrom_last]
    dsimp only
    rw [if_pos (show (sU cu (0 + n)).role = "user" from rfl)]
  unfold parseNeedSendMessage
  rw [if_neg hcond1, if_neg hcond2, halt, hfirst, hlast]
  cases n with
  | zero => rfl
  | succ m =>
    have hlt : 1 < 2 * (m + 1) + 1 := by omega
    have hc : (!false && decide (0 < 1) &&
        decide (1 < (sFrom cu ca 0 (m + 1)).length)) = true := by
      rw [sFrom_length]
      simp [hlt]
    unfold afterLimit
    rw [hc]
    rw [if_pos rfl]
    have hw : limitWindow 1 (sFrom cu ca 0 (m + 1)) = [sU cu (0 + (m + 1))] := by
      unfold limitWindow
      rw [sFrom_length]
      rw [show 2 * (m + 1) + 1 - 1 = 2 * (m + 1) by omega]
      exact sFrom_drop cu ca (m + 1) 0
    unfold limitStep
    rw [hw]
    rw [show ([sU cu (0 + (m + 1))]).head? = some (sU cu (0 + (m + 1))) from rfl]
    dsimp only
    rw [if_pos (show (sU cu (0 + (m + 1))).role = "user" from rfl)]
    unfold limitOnePass
    rw [if_pos rfl]
    rw [show findIdxUser [sU cu (0 + (m + 1))] = some 0 from rfl]
    dsimp only
    rw [show (0 : Nat) + (m + 1) = m + 1 by omega]
    rw [show ([sU cu (m + 1)]).get? 0 = some (sU cu (m + 1)) from rfl]
    dsimp only
    rfl

/-- Witness for `c8_limit_one_most_recent_user` at `n = 2`:
`[U1, A1, U2, A2, U3]` with limit 1 yields exactly `[U3]`. -/
theorem c8_limit_one_most_recent_user_witness :
    ((fun _ : Nat => "u3") 0 ≠ "") ∧
    parseNeedSendMessage false 1
        (conv (fun _ => "u3") (fun _ => "a1") 2) =
      [{ role := "user", content := "u3" }] := by
  have hcu : ∀ j : Nat, (fun _ : Nat => "u3") j ≠ "" := by
    intro j
    show ("u3" : String) ≠ ""
    decide
  have hca : ∀ j : Nat, (fun _ : Nat => "a1") j ≠ "" := by
    intro j
    show ("a1" : String) ≠ ""
    decide
  exact ⟨hcu 0,
    c8_limit_one_most_recent_user 2 (fun _ => "u3") (fun _ => "a1") hcu hca⟩
